import Mathlib

/-!
Verification of the uestc-client authentication engine.

This file gives a shallow embedding of the client's core protocol logic —
the password-encryption routine (`src/core/crypto.rs`), the login-page
scraper loop (`src/core/parser.rs`), the QR scan-status parsing and the
polling state machine (`src/core/wechat.rs`, `src/client/blocking_impl.rs`),
and the cookie save/load pipeline (`src/client/blocking_impl.rs`) — and
proves or refutes the specified properties about them.

Bytes are modelled as `Nat` with explicit `% 256` where eight-bit wrapping
matters; strings are Lean `String`s, converted to UTF-8 byte lists exactly
where the Rust code calls `as_bytes()`.  Randomness is modelled by passing
the drawn IV string and random character run as explicit arguments.
-/

namespace Uestc

/-! ## Bytes and the AES block cipher

`encrypt_password` uses the `aes` crate's AES-128/192/256 block encryption
(FIPS-197).  We embed the standard cipher: the S-box is defined
algebraically (multiplicative inverse in GF(2^8) followed by the affine
transform), which agrees with the crate's lookup tables. -/

/-- Multiplication by x in GF(2^8) modulo x^8+x^4+x^3+x+1, on a byte. -/
def xtime (b : Nat) : Nat := (2 * b % 256) ^^^ (if 128 ≤ b then 27 else 0)

/-- Russian-peasant GF(2^8) multiplication, eight shift-and-add steps. -/
def gmulGo : Nat → Nat → Nat → Nat → Nat
  | 0, _, _, acc => acc
  | n + 1, a, b, acc => gmulGo n (xtime a) (b / 2) (if b % 2 = 1 then acc ^^^ a else acc)

def gmul (a b : Nat) : Nat := gmulGo 8 a b 0

/-- b^254 in GF(2^8): the multiplicative inverse for nonzero b, 0 for 0. -/
def gpow254 (b : Nat) : Nat :=
  let b2 := gmul b b
  let b4 := gmul b2 b2
  let b8 := gmul b4 b4
  let b16 := gmul b8 b8
  let b32 := gmul b16 b16
  let b64 := gmul b32 b32
  let b128 := gmul b64 b64
  gmul b128 (gmul b64 (gmul b32 (gmul b16 (gmul b8 (gmul b4 b2)))))

/-- Rotate an 8-bit value left by n bits. -/
def rotl8 (x n : Nat) : Nat := (x * 2 ^ n % 256) ||| (x / 2 ^ (8 - n))

/-- The AES S-box: inverse in GF(2^8) followed by the affine transform. -/
def sbox (b : Nat) : Nat :=
  let i := gpow254 b
  i ^^^ rotl8 i 1 ^^^ rotl8 i 2 ^^^ rotl8 i 3 ^^^ rotl8 i 4 ^^^ 99

def zipXor (a b : List Nat) : List Nat := List.zipWith (fun x y => x ^^^ y) a b

def subBytes (s : List Nat) : List Nat := s.map sbox

/-- ShiftRows on the flat 16-byte state (column-major order, as the block
is laid out in memory). -/
def shiftRows : List Nat → List Nat
  | [s0, s1, s2, s3, s4, s5, s6, s7, s8, s9, s10, s11, s12, s13, s14, s15] =>
    [s0, s5, s10, s15, s4, s9, s14, s3, s8, s13, s2, s7, s12, s1, s6, s11]
  | s => s

/-- Multiplication by 02 in GF(2^8). -/
def g2 (x : Nat) : Nat := xtime x

/-- Multiplication by 03 in GF(2^8). -/
def g3 (x : Nat) : Nat := xtime x ^^^ x

/-- MixColumns on one four-byte column. -/
def mixCol : List Nat → List Nat
  | [a, b, c, d] =>
    [g2 a ^^^ g3 b ^^^ c ^^^ d,
     a ^^^ g2 b ^^^ g3 c ^^^ d,
     a ^^^ b ^^^ g2 c ^^^ g3 d,
     g3 a ^^^ b ^^^ c ^^^ g2 d]
  | s => s

def mixColumns : List Nat → List Nat
  | [s0, s1, s2, s3, s4, s5, s6, s7, s8, s9, s10, s11, s12, s13, s14, s15] =>
    mixCol [s0, s1, s2, s3] ++ mixCol [s4, s5, s6, s7] ++
      mixCol [s8, s9, s10, s11] ++ mixCol [s12, s13, s14, s15]
  | s => s

/-! ### Key expansion -/

def rotWord : List Nat → List Nat
  | [a, b, c, d] => [b, c, d, a]
  | w => w

def subWord (w : List Nat) : List Nat := w.map sbox

/-- Round constants: rcon 0 = 01, thereafter doubling in GF(2^8). -/
def rcon : Nat → Nat
  | 0 => 1
  | n + 1 => xtime (rcon n)

/-- Split a list into chunks of four (the last chunk may be short). -/
def chunks4 {α : Type} : List α → List (List α)
  | [] => []
  | a :: l => (a :: l).take 4 :: chunks4 (l.drop 3)
termination_by l => l.length
decreasing_by simp [List.length_drop]; omega

/-- One word-generation step of the FIPS-197 key expansion, iterated
`fuel` times; `acc` holds the words produced so far. -/
def expandGo (nk : Nat) : Nat → List (List Nat) → List (List Nat)
  | 0, acc => acc
  | fuel + 1, acc =>
    let i := acc.length
    let prev := acc.getLastD []
    let temp :=
      if i % nk = 0 then zipXor (subWord (rotWord prev)) [rcon (i / nk - 1), 0, 0, 0]
      else if 6 < nk ∧ i % nk = 4 then subWord prev
      else prev
    expandGo nk fuel (acc ++ [zipXor (acc.getD (i - nk) []) temp])

/-- Expand a key of `4 * nk` bytes into the `nr + 1` sixteen-byte round
keys. -/
def expandKey (nk nr : Nat) (key : List Nat) : List (List Nat) :=
  (chunks4 (expandGo nk (4 * (nr + 1) - nk) (chunks4 key))).map List.flatten

/-- The rounds after the initial AddRoundKey: every round but the last is
SubBytes, ShiftRows, MixColumns, AddRoundKey; the last omits MixColumns. -/
def encryptBlockGo : List Nat → List (List Nat) → List Nat
  | s, [] => s
  | s, [k] => zipXor (shiftRows (subBytes s)) k
  | s, k :: k2 :: rest => encryptBlockGo (zipXor (mixColumns (shiftRows (subBytes s))) k) (k2 :: rest)

/-- AES block encryption with the given round keys. -/
def encryptBlock (rks : List (List Nat)) (b : List Nat) : List Nat :=
  match rks with
  | [] => b
  | k0 :: rest => encryptBlockGo (zipXor b k0) rest

/-- CBC encryption as written in `encrypt_password`: each 16-byte chunk is
XORed with the previous ciphertext block (initially the IV), then block
encrypted. -/
def cbcEnc (rks : List (List Nat)) (civ : List Nat) : List Nat → List Nat
  | [] => []
  | a :: l =>
    let c := encryptBlock rks (zipXor ((a :: l).take 16) civ)
    c ++ cbcEnc rks c (l.drop 15)
termination_by l => l.length
decreasing_by simp [List.length_drop]; omega

/-! ## UTF-8, trimming, base64 -/

/-- UTF-8 encoding of one scalar value, as Rust's `str::as_bytes` exposes it. -/
def charUtf8 (c : Char) : List Nat :=
  if c.toNat < 128 then [c.toNat]
  else if c.toNat < 2048 then [192 + c.toNat / 64, 128 + c.toNat % 64]
  else if c.toNat < 65536 then
    [224 + c.toNat / 4096, 128 + c.toNat / 64 % 64, 128 + c.toNat % 64]
  else
    [240 + c.toNat / 262144, 128 + c.toNat / 4096 % 64, 128 + c.toNat / 64 % 64,
      128 + c.toNat % 64]

def utf8Bytes (s : String) : List Nat := (s.data.map charUtf8).flatten

/-- The Unicode White_Space property, which Rust's `str::trim` strips. -/
def rustIsWhitespace (c : Char) : Bool :=
  let n := c.toNat
  decide ((9 ≤ n ∧ n ≤ 13) ∨ n = 32 ∨ n = 133 ∨ n = 160 ∨ n = 5760 ∨
    (8192 ≤ n ∧ n ≤ 8202) ∨ n = 8232 ∨ n = 8233 ∨ n = 8239 ∨ n = 8287 ∨ n = 12288)

def rustTrimList (l : List Char) : List Char :=
  ((l.dropWhile rustIsWhitespace).reverse.dropWhile rustIsWhitespace).reverse

/-- Rust `str::trim`. -/
def rustTrim (s : String) : String := ⟨rustTrimList s.data⟩

/-- Standard base64 alphabet. -/
def b64Char (n : Nat) : Char :=
  if n < 26 then Char.ofNat (65 + n)
  else if n < 52 then Char.ofNat (97 + (n - 26))
  else if n < 62 then Char.ofNat (48 + (n - 52))
  else if n = 62 then '+' else '/'

/-- Standard base64 encoding with padding (`base64::engine::general_purpose::STANDARD`). -/
def b64EncList : List Nat → List Char
  | [] => []
  | [a] => [b64Char (a / 4), b64Char (a % 4 * 16), '=', '=']
  | [a, b] => [b64Char (a / 4), b64Char (a % 4 * 16 + b / 16), b64Char (b % 16 * 4), '=']
  | a :: b :: c :: l =>
    b64Char (a / 4) :: b64Char (a % 4 * 16 + b / 16) ::
      b64Char (b % 16 * 4 + c / 64) :: b64Char (c % 64) :: b64EncList l

def base64Enc (bs : List Nat) : String := ⟨b64EncList bs⟩

def b64Val (c : Char) : Option Nat :=
  let n := c.toNat
  if 65 ≤ n ∧ n ≤ 90 then some (n - 65)
  else if 97 ≤ n ∧ n ≤ 122 then some (n - 97 + 26)
  else if 48 ≤ n ∧ n ≤ 57 then some (n - 48 + 52)
  else if c = '+' then some 62
  else if c = '/' then some 63
  else none

/-- Base64 decoding of well-formed padded input. -/
def b64DecList : List Char → Option (List Nat)
  | [] => some []
  | w :: x :: y :: z :: l =>
    match b64Val w, b64Val x with
    | some a, some b =>
      if y = '=' then
        if z = '=' ∧ l = [] then some [a * 4 + b / 16] else none
      else
        match b64Val y with
        | some c =>
          if z = '=' then
            if l = [] then some [a * 4 + b / 16, b % 16 * 16 + c / 4] else none
          else
            match b64Val z, b64DecList l with
            | some d, some rest =>
              some ((a * 4 + b / 16) :: (b % 16 * 16 + c / 4) :: (c % 4 * 64 + d) :: rest)
            | _, _ => none
        | none => none
    | _, _ => none
  | _ => none

def base64Dec (s : String) : Option (List Nat) := b64DecList s.data

/-! ## Errors and `encrypt_password` -/

/-- The crate's error enumeration (`UestcClientError` in `src/lib.rs`),
with the fields the verified claims inspect. -/
inductive UestcClientError where
  | NetworkError (message : String)
  | HtmlParseError (message : String)
  | XmlParseError (message : String)
  | CryptoError (message : String)
  | LoginFailed (message : String) (username : Option String)
  | LogoutFailed (message : String)
  | CookieError (operation : String) (message : String)
  | SessionExpired
  | WeChatError (message : String)
  | ClientInitError (message : String)
deriving DecidableEq, Repr

/-- The alphabet `AES_CHARS` from which `random_string` draws. -/
def aesChars : List Char := "ABCDEFGHJKMNPQRSTWXYZabcdefhijkmnprstwxyz2345678".data

/-- `encrypt_password` from `src/core/crypto.rs`, with the two random draws
(the 16-character IV string and the 64-character run prepended to the
password) passed explicitly: trim the salt, use its bytes as the key,
PKCS7-pad `run ++ password`, CBC-encrypt, base64-encode.  A trimmed key
length other than 16/24/32 is the `CryptoError` branch. -/
def encryptPasswordWith (ivStr preStr password pwdEncryptSalt : String) :
    Except UestcClientError String :=
  let salt := rustTrim pwdEncryptSalt
  let key := utf8Bytes salt
  let iv := utf8Bytes ivStr
  let plaintextBytes := utf8Bytes (preStr ++ password)
  let paddingLen := 16 - plaintextBytes.length % 16
  let paddedInput := plaintextBytes ++ List.replicate paddingLen paddingLen
  if key.length = 16 then .ok (base64Enc (cbcEnc (expandKey 4 10 key) iv paddedInput))
  else if key.length = 24 then .ok (base64Enc (cbcEnc (expandKey 6 12 key) iv paddedInput))
  else if key.length = 32 then .ok (base64Enc (cbcEnc (expandKey 8 14 key) iv paddedInput))
  else .error (.CryptoError ("Invalid key length: " ++ toString key.length))

/-! ## WeChat scan-status parsing (`src/core/wechat.rs`)

`parse_scan_status` matches the regex `window\.wx_errcode=(\d+)` (leftmost
match, maximal digit run) and, on status 405, the lazy regex
`window\.wx_code=['"](.+?)['"]`.  We embed the two searches as scanners
over the character list; `\d` and `.` are modelled over the ASCII range
(the long-poll bodies are ASCII JavaScript). -/

inductive ScanStatus where
  | Waiting
  | Scanned
  | Confirmed
  | Expired
  | Unknown (code : Int)
deriving DecidableEq, Repr

structure ScanResult where
  status : ScanStatus
  wxCode : Option String
deriving DecidableEq, Repr

/-- If `lit` is a leading run of `cs`, return the rest. -/
def stripLit : List Char → List Char → Option (List Char)
  | [], cs => some cs
  | _ :: _, [] => none
  | l :: ls, c :: cs => if c = l then stripLit ls cs else none

/-- Leftmost match of `window\.wx_errcode=(\d+)`: the captured digit run. -/
def findErrcode : List Char → Option (List Char)
  | [] => none
  | c :: rest =>
    match stripLit "window.wx_errcode=".data (c :: rest) with
    | some after =>
      let ds := after.takeWhile Char.isDigit
      if ds.isEmpty then findErrcode rest else some ds
    | none => findErrcode rest

/-- The numeric value of a digit run. -/
def digitsToNat (ds : List Char) : Nat :=
  ds.foldl (fun acc c => acc * 10 + (c.toNat - 48)) 0

/-- `caps[1].parse::<i32>().unwrap_or(0)`: digit runs beyond `i32::MAX`
fail to parse and fall back to 0. -/
def parseI32OrZero (ds : List Char) : Int :=
  if digitsToNat ds ≤ 2147483647 then (digitsToNat ds : Int) else 0

/-- The status table of `parse_scan_status`. -/
def mapErrcode (code : Int) : ScanStatus :=
  if code = 408 then .Waiting
  else if code = 404 then .Scanned
  else if code = 405 then .Confirmed
  else if code = 402 then .Expired
  else .Unknown code

/-- The lazy capture `(.+?)['"]`: the shortest nonempty run of non-newline
characters followed by a quote. -/
def lazyCap : List Char → Option (List Char)
  | [] => none
  | [_] => none
  | c :: d :: rest =>
    if c = '\n' then none
    else if d = '\'' ∨ d = '"' then some [c]
    else (lazyCap (d :: rest)).map (fun l => c :: l)

/-- Leftmost match of `window\.wx_code=['"](.+?)['"]`. -/
def findWxCode : List Char → Option String
  | [] => none
  | c :: rest =>
    match stripLit "window.wx_code=".data (c :: rest) with
    | some after =>
      match after with
      | q :: more =>
        if q = '\'' ∨ q = '"' then
          match lazyCap more with
          | some cap => some ⟨cap⟩
          | none => findWxCode rest
        else findWxCode rest
      | [] => findWxCode rest
    | none => findWxCode rest

/-- `parse_scan_status` from `src/core/wechat.rs`: map the extracted code
through the status table (absence of the pattern is `Unknown 0`), then
search for `wx_code` only when the status is `Confirmed`. -/
def parseScanStatus (text : String) : Except UestcClientError ScanResult :=
  let status :=
    match findErrcode text.data with
    | some ds => mapErrcode (parseI32OrZero ds)
    | none => ScanStatus.Unknown 0
  let wxCode := if status = ScanStatus.Confirmed then findWxCode text.data else none
  .ok ⟨status, wxCode⟩

/-! ## The polling loop of `wechat_login` (`src/client/blocking_impl.rs`)

The loop keeps `last_code : Option String`; each iteration polls
`build_poll_url(uuid, last_code)` and dispatches on the parsed status. -/

/-- `build_poll_url`, with the millisecond timestamp passed explicitly. -/
def buildPollUrl (uuid : String) (timestamp : Nat) (lastCode : Option String) : String :=
  "https://lp.open.weixin.qq.com/connect/l/qrconnect?uuid=" ++ uuid ++
    "&_=" ++ toString timestamp ++
    (match lastCode with
     | some code => "&last=" ++ code
     | none => "")

/-- Outcome of one iteration of the `wechat_login` polling loop. -/
inductive PollOut where
  | next (lastCode : Option String)
  | success (wxCode : String)
  | failure (e : UestcClientError)
deriving DecidableEq, Repr

/-- The `match result.status` dispatch inside the loop: `Confirmed` breaks
with the code or errors when the code is missing, `Scanned` sets
`last_code = "404"`, `Expired` errors, `Waiting` and `Unknown` continue
with `last_code` unchanged. -/
def pollStep (lastCode : Option String) (r : ScanResult) : PollOut :=
  match r.status with
  | .Confirmed =>
    match r.wxCode with
    | some code => .success code
    | none => .failure (.WeChatError "Received 405 status but wx_code not found")
  | .Scanned => .next (some "404")
  | .Expired => .failure (.WeChatError "QR code expired, please run again")
  | .Waiting => .next lastCode
  | .Unknown _ => .next lastCode

/-- A result is terminal when the loop does not continue past it. -/
def terminates (lastCode : Option String) (r : ScanResult) : Bool :=
  match pollStep lastCode r with
  | .next _ => false
  | _ => true

/-- The `last_code` state after the loop has processed `rs` (all
non-terminal), starting from `lastCode`. -/
def lastCodeAfter (lastCode : Option String) (rs : List ScanResult) : Option String :=
  rs.foldl (fun lc r =>
    match pollStep lc r with
    | .next lc2 => lc2
    | _ => lc) lastCode

/-! ## Login-page scraping (`src/core/parser.rs`)

`parse_login_page` selects `div#pwdLoginDiv input` via the `scraper` crate
and folds over the matched elements.  We embed that fold, taking the
selected input elements (their `id` and `value` attributes) as input; the
HTML5 parsing and CSS selection themselves belong to the external crate. -/

structure InputEl where
  idAttr : Option String
  valueAttr : Option String
deriving DecidableEq, Repr

structure LoginPageInfo where
  encryptScriptPath : Option String
  pwdEncryptSalt : String
  formData : List (String × String)
deriving DecidableEq, Repr

/-- `HashMap::insert`: replace the value when the key exists, else add. -/
def upsert : List (String × String) → String → String → List (String × String)
  | [], k, v => [(k, v)]
  | (k0, v0) :: rest, k, v =>
    if k0 = k then (k, v) :: rest else (k0, v0) :: upsert rest k v

/-- One step of the loop over the selected inputs: missing attributes
become the sentinel `"N/A"`; an input whose id is `pwdEncryptSalt`
overwrites the salt; an entry is inserted only when neither attribute is
`"N/A"`. -/
def scanStep (st : List (String × String) × Option String) (e : InputEl) :
    List (String × String) × Option String :=
  let inputId := e.idAttr.getD "N/A"
  let inputValue := e.valueAttr.getD "N/A"
  let salt := if inputId = "pwdEncryptSalt" then some inputValue else st.2
  let fd := if inputId ≠ "N/A" ∧ inputValue ≠ "N/A"
    then upsert st.1 inputId inputValue else st.1
  (fd, salt)

def scanInputs (inputs : List InputEl) : List (String × String) × Option String :=
  inputs.foldl scanStep ([], none)

/-- `parse_login_page` after element selection: fail only when no input
supplied a salt. -/
def parseLoginPage (scriptPath : Option String) (inputs : List InputEl) :
    Except UestcClientError LoginPageInfo :=
  match (scanInputs inputs).2 with
  | some salt => .ok ⟨scriptPath, salt, (scanInputs inputs).1⟩
  | none => .error (.HtmlParseError "Failed to find 'pwdEncryptSalt' in login page")

/-! ## Cookie persistence (`src/client/blocking_impl.rs`)

`save_cookie_store` snapshots the jar into `SerializableCookie` records;
`load_cookie_store` rebuilds each record into a cookie-set string,
reparses it with the `cookie` crate and inserts it against
`https://<domain>`.  The jar is modelled as a list of cookies carrying the
fields the snapshot reads; the `cookie` crate's string parser is modelled
for strings of the generated shape (split on `;`, first segment
`name=value` at the first `=`, case-insensitive attribute names, segments
trimmed of blanks). -/

/-- One cookie as held by the `cookie_store` jar: accessor results of
`name() / value() / domain() / path() / expires-ish data / secure() /
http_only()`. -/
structure StoreCookie where
  name : String
  value : String
  domain : Option String
  path : Option String
  expires : Option Int
  secure : Option Bool
  httpOnly : Option Bool
deriving DecidableEq, Repr

/-- The persisted record shape (`SerializableCookie` in the source). -/
structure SerializableCookie where
  name : String
  value : String
  domain : String
  path : String
  expires : Option Int
  secure : Bool
  httpOnly : Bool
deriving DecidableEq, Repr

def defaultDomain : String := "idas.uestc.edu.cn"

/-- `save_cookie_store`: snapshot every cookie; a missing or empty domain
falls back to the identity server's own domain; `expires` is always
written as `None`; missing path becomes `/`, missing flags become false. -/
def saveCookieStore (jar : List StoreCookie) : List SerializableCookie :=
  jar.map fun c =>
    let domain := match c.domain with
      | some d => if d = "" then defaultDomain else d
      | none => defaultDomain
    { name := c.name, value := c.value, domain := domain,
      path := c.path.getD "/", expires := none,
      secure := c.secure.getD false, httpOnly := c.httpOnly.getD false }

/-- The cookie-set string rebuilt by `load_cookie_store`. -/
def buildCookieStr (sc : SerializableCookie) : String :=
  sc.name ++ "=" ++ sc.value ++ "; Domain=" ++ sc.domain ++ "; Path=" ++ sc.path ++
    (if sc.secure then "; Secure" else "") ++
    (if sc.httpOnly then "; HttpOnly" else "") ++
    (match sc.expires with
     | some e => "; Max-Age=" ++ toString e
     | none => "")

/-- The result of `cookie::Cookie::parse`. -/
structure RawCookie where
  name : String
  value : String
  domain : Option String
  path : Option String
  secure : Bool
  httpOnly : Bool
  maxAge : Option Int
deriving DecidableEq, Repr

/-- Blanks trimmed around cookie-string segments. -/
def isCookieWS (c : Char) : Bool := c == ' ' || c == '\t'

def trimWs (l : List Char) : List Char :=
  ((l.dropWhile isCookieWS).reverse.dropWhile isCookieWS).reverse

def splitOnChar (sep : Char) : List Char → List (List Char)
  | [] => [[]]
  | c :: rest =>
    match splitOnChar sep rest with
    | [] => [[c]]
    | g :: gs => if c = sep then [] :: g :: gs else (c :: g) :: gs

/-- Split a segment at its first `=`. -/
def splitFirstEq : List Char → Option (List Char × List Char)
  | [] => none
  | c :: rest =>
    if c = '=' then some ([], rest)
    else (splitFirstEq rest).map (fun p => (c :: p.1, p.2))

def lowerChar (c : Char) : Char :=
  if 65 ≤ c.toNat ∧ c.toNat ≤ 90 then Char.ofNat (c.toNat + 32) else c

def lowerList (l : List Char) : List Char := l.map lowerChar

/-- An optionally-signed ASCII decimal integer. -/
def parseIntOpt (l : List Char) : Option Int :=
  match l with
  | '-' :: ds =>
    if ds ≠ [] ∧ ds.all Char.isDigit then some (-(digitsToNat ds : Int)) else none
  | ds =>
    if ds ≠ [] ∧ ds.all Char.isDigit then some ((digitsToNat ds : Int)) else none

/-- A `Name=Value` attribute segment applied to the cookie being parsed
(attribute names compared case-insensitively, values trimmed; a leading
dot is stripped from a Domain value). -/
def applyKV (c : RawCookie) (k v : List Char) : RawCookie :=
  if lowerList (trimWs k) = "domain".data then
    if (trimWs v).isEmpty then c
    else
      { c with
        domain := some (String.mk
          (if (trimWs v).head? = some '.' then (trimWs v).tail else trimWs v)) }
  else if lowerList (trimWs k) = "path".data then { c with path := some ⟨trimWs v⟩ }
  else if lowerList (trimWs k) = "max-age".data then
    { c with maxAge := match parseIntOpt (trimWs v) with
        | some n => some n
        | none => c.maxAge }
  else c

/-- A bare flag segment (`Secure` / `HttpOnly`). -/
def applyFlag (c : RawCookie) (seg : List Char) : RawCookie :=
  if lowerList seg = "secure".data then { c with secure := true }
  else if lowerList seg = "httponly".data then { c with httpOnly := true }
  else c

/-- One attribute segment applied to the cookie being parsed. -/
def applyAttr (c : RawCookie) (seg0 : List Char) : RawCookie :=
  match splitFirstEq (trimWs seg0) with
  | some (k, v) => applyKV c k v
  | none => applyFlag c (trimWs seg0)

/-- `cookie::Cookie::parse` on a cookie-set string of the generated shape. -/
def parseRawCookie (s : String) : Option RawCookie :=
  match splitOnChar ';' s.data with
  | [] => none
  | first :: attrs =>
    match splitFirstEq first with
    | none => none
    | some (n, v) =>
      let name := trimWs n
      let value := trimWs v
      if name.isEmpty then none
      else some (attrs.foldl applyAttr
        { name := ⟨name⟩, value := ⟨value⟩, domain := none, path := none,
          secure := false, httpOnly := false, maxAge := none })

/-- `Url::parse("https://" ++ domain)` succeeds with host `domain`: an
ASCII host of lowercase letters, digits, dots and hyphens. -/
def validHost (s : String) : Bool :=
  !s.data.isEmpty && s.data.all fun c =>
    decide ((97 ≤ c.toNat ∧ c.toNat ≤ 122) ∨ (48 ≤ c.toNat ∧ c.toNat ≤ 57) ∨
      c = '.' ∨ c = '-')

/-- RFC 6265 domain matching, as `insert_raw` checks the cookie's Domain
attribute against the request host. -/
def domainMatch (d host : String) : Bool :=
  d == host || ('.' :: d.data).isSuffixOf host.data

/-- `load_cookie_store`: skip records with an empty domain, rebuild and
reparse the cookie string, and insert against `https://<domain>`; records
whose string fails to parse, whose domain is not a parseable host, or
whose Domain attribute does not match the host are skipped. -/
def loadCookieStore (records : List SerializableCookie) : List StoreCookie :=
  records.filterMap fun sc =>
    if sc.domain = "" then none
    else
      match parseRawCookie (buildCookieStr sc) with
      | some rc =>
        if validHost sc.domain then
          if (match rc.domain with
              | some d => domainMatch d sc.domain
              | none => true) then
            some { name := rc.name, value := rc.value, domain := rc.domain,
                   path := rc.path, expires := rc.maxAge,
                   secure := if rc.secure then some true else none,
                   httpOnly := if rc.httpOnly then some true else none }
          else none
        else none
      | none => none

/-! # Theorems

## Login-page scraping: claims C5, C6, C10 -/

lemma getD_eq_salt_iff (o : Option String) :
    o.getD "N/A" = "pwdEncryptSalt" ↔ o = some "pwdEncryptSalt" := by
  cases o <;> simp [Option.getD]

lemma foldl_scanStep_salt_none (inputs : List InputEl) :
    ∀ st : List (String × String) × Option String,
      (inputs.foldl scanStep st).2 = none ↔
        st.2 = none ∧ ∀ e ∈ inputs, e.idAttr ≠ some "pwdEncryptSalt" := by
  induction inputs with
  | nil => intro st; simp
  | cons e rest ih =>
    intro st
    rw [List.foldl_cons, ih]
    by_cases h : e.idAttr.getD "N/A" = "pwdEncryptSalt"
    · rw [getD_eq_salt_iff] at h
      simp [scanStep, getD_eq_salt_iff, h]
    · have h2 : e.idAttr ≠ some "pwdEncryptSalt" := fun hc =>
        h ((getD_eq_salt_iff _).mpr hc)
      simp only [scanStep, if_neg h]
      constructor
      · rintro ⟨hs, hrest⟩
        exact ⟨hs, by simpa [h2] using hrest⟩
      · rintro ⟨hs, hrest⟩
        exact ⟨hs, fun e2 he2 => hrest e2 (List.mem_cons_of_mem _ he2)⟩

/-- Claim C5 (counterexample): an input carrying id `pwdEncryptSalt` but no
`value` attribute does not make `parse_login_page` fail — the sentinel
`"N/A"` becomes the salt and parsing succeeds. -/
theorem parseLoginPage_missing_value_ok :
    parseLoginPage none [⟨some "pwdEncryptSalt", none⟩] = .ok ⟨none, "N/A", []⟩ := by
  rfl

/-- Claim C5 (amended): `parse_login_page` fails with the `HtmlParseError`
naming `pwdEncryptSalt` exactly when no selected input carries the id
attribute `pwdEncryptSalt`; an input with that id but no value attribute
yields the sentinel salt `"N/A"` instead of an error. -/
theorem parseLoginPage_missing_salt_iff (sp : Option String) (inputs : List InputEl) :
    parseLoginPage sp inputs =
      .error (.HtmlParseError "Failed to find 'pwdEncryptSalt' in login page") ↔
    ∀ e ∈ inputs, e.idAttr ≠ some "pwdEncryptSalt" := by
  constructor
  · intro hfail
    have hs : (scanInputs inputs).2 = none := by
      unfold parseLoginPage at hfail
      rcases hs : (scanInputs inputs).2 with _ | salt
      · rfl
      · rw [hs] at hfail; exact absurd hfail (by simp)
    exact ((foldl_scanStep_salt_none inputs ([], none)).mp hs).2
  · intro hall
    have hs : (scanInputs inputs).2 = none :=
      (foldl_scanStep_salt_none inputs ([], none)).mpr ⟨rfl, hall⟩
    unfold parseLoginPage
    rw [hs]

/-- Claim C6 (counterexample): a page whose `pwdEncryptSalt` value is 3
bytes long — not 16, 24 or 32 — still parses successfully, so the length
invariant claimed for `LoginPageInfo` is not enforced. -/
theorem parseLoginPage_accepts_bad_salt_length :
    parseLoginPage none [⟨some "pwdEncryptSalt", some "abc"⟩] =
      .ok ⟨none, "abc", [("pwdEncryptSalt", "abc")]⟩ ∧
    ¬ ((utf8Bytes "abc").length = 16 ∨ (utf8Bytes "abc").length = 24 ∨
        (utf8Bytes "abc").length = 32) := by
  exact ⟨rfl, by decide⟩

/-- Claim C6 (amended): `parse_login_page` performs no validation of the
salt's length: any page containing an input with id `pwdEncryptSalt`
parses successfully, whatever the length of its value; the {16, 24, 32}
constraint is only enforced downstream by `encrypt_password`. -/
theorem parseLoginPage_ok_of_salt_input (sp : Option String) (inputs : List InputEl)
    (h : ∃ e ∈ inputs, e.idAttr = some "pwdEncryptSalt") :
    ∃ info, parseLoginPage sp inputs = .ok info := by
  unfold parseLoginPage
  rcases hs : (scanInputs inputs).2 with _ | salt
  · have hnone := (foldl_scanStep_salt_none inputs ([], none)).mp hs
    obtain ⟨e, he, hid⟩ := h
    exact absurd hid (hnone.2 e he)
  · exact ⟨_, rfl⟩

/-- Claim C6 (witness). -/
theorem parseLoginPage_ok_of_salt_input_witness :
    ∃ info, parseLoginPage none [⟨some "pwdEncryptSalt", some "abc"⟩] = .ok info :=
  parseLoginPage_ok_of_salt_input none _ ⟨⟨some "pwdEncryptSalt", some "abc"⟩, by simp⟩

lemma mem_upsert_key (m : List (String × String)) (k0 v0 k : String) :
    (∃ v, (k, v) ∈ upsert m k0 v0) ↔ k = k0 ∨ ∃ v, (k, v) ∈ m := by
  induction m with
  | nil => simp [upsert]
  | cons p rest ih =>
    rcases p with ⟨pk, pv⟩
    by_cases h : pk = k0
    · subst h
      simp only [upsert, if_pos rfl, List.mem_cons, Prod.mk.injEq]
      aesop
    · simp only [upsert, if_neg h, List.mem_cons, Prod.mk.injEq]
      constructor
      · rintro ⟨v, (⟨rfl, rfl⟩ | hv)⟩
        · exact Or.inr ⟨v, Or.inl ⟨rfl, rfl⟩⟩
        · rcases ih.mp ⟨v, hv⟩ with h2 | ⟨v2, h2⟩
          · exact Or.inl h2
          · exact Or.inr ⟨v2, Or.inr h2⟩
      · rintro (rfl | ⟨v, hv⟩)
        · obtain ⟨v, hv⟩ := ih.mpr (Or.inl rfl)
          exact ⟨v, Or.inr hv⟩
        · rcases hv with ⟨h1, h2⟩ | h1
          · exact ⟨v, Or.inl ⟨h1, h2⟩⟩
          · obtain ⟨v2, hv2⟩ := ih.mpr (Or.inr ⟨v, h1⟩)
            exact ⟨v2, Or.inr hv2⟩

lemma foldl_scanStep_keys (inputs : List InputEl) :
    ∀ st k, (∃ v, (k, v) ∈ (inputs.foldl scanStep st).1) ↔
      (∃ v, (k, v) ∈ st.1) ∨
        ∃ e ∈ inputs, e.idAttr.getD "N/A" = k ∧ k ≠ "N/A" ∧
          e.valueAttr.getD "N/A" ≠ "N/A" := by
  induction inputs with
  | nil => intro st k; simp
  | cons e rest ih =>
    intro st k
    rw [List.foldl_cons, ih]
    by_cases hcond : e.idAttr.getD "N/A" ≠ "N/A" ∧ e.valueAttr.getD "N/A" ≠ "N/A"
    · simp only [scanStep, if_pos hcond]
      rw [mem_upsert_key]
      constructor
      · rintro ((rfl | hst) | ⟨e2, he2, h2⟩)
        · exact Or.inr ⟨e, List.mem_cons_self _ _, rfl, hcond.1, hcond.2⟩
        · exact Or.inl hst
        · exact Or.inr ⟨e2, List.mem_cons_of_mem _ he2, h2⟩
      · rintro (hst | ⟨e2, he2, h2, h3, h4⟩)
        · exact Or.inl (Or.inr hst)
        · rcases List.mem_cons.mp he2 with rfl | he2
          · exact Or.inl (Or.inl h2.symm)
          · exact Or.inr ⟨e2, he2, h2, h3, h4⟩
    · simp only [scanStep, if_neg hcond]
      constructor
      · rintro (hst | ⟨e2, he2, h2⟩)
        · exact Or.inl hst
        · exact Or.inr ⟨e2, List.mem_cons_of_mem _ he2, h2⟩
      · rintro (hst | ⟨e2, he2, h2, h3, h4⟩)
        · exact Or.inl hst
        · rcases List.mem_cons.mp he2 with rfl | he2
          · have hidne : e2.idAttr.getD "N/A" ≠ "N/A" := by rw [h2]; exact h3
            exact absurd ⟨hidne, h4⟩ hcond
          · exact Or.inr ⟨e2, he2, h2, h3, h4⟩

lemma getD_id_eq_iff (o : Option String) (k : String) (hk : k ≠ "N/A") :
    o.getD "N/A" = k ↔ o = some k := by
  cases o <;> simp [Option.getD]
  exact fun h => absurd h.symm hk

lemma getD_val_ne_iff (o : Option String) :
    o.getD "N/A" ≠ "N/A" ↔ ∃ v, o = some v ∧ v ≠ "N/A" := by
  cases o <;> simp [Option.getD]

/-- Claim C10: an id-to-value entry is stored in `form_data` exactly when
both the `id` and `value` attributes are present and neither equals the
sentinel string `"N/A"` — in particular an input whose genuine value is
the literal `"N/A"` is silently omitted — and a successful
`parse_login_page` returns exactly that map. -/
theorem formData_entry_iff (inputs : List InputEl) (k : String) :
    ((∃ v, (k, v) ∈ (scanInputs inputs).1) ↔
      (k ≠ "N/A" ∧ ∃ e ∈ inputs, e.idAttr = some k ∧
        ∃ v, e.valueAttr = some v ∧ v ≠ "N/A")) ∧
    (∀ sp info, parseLoginPage sp inputs = .ok info →
      info.formData = (scanInputs inputs).1) := by
  constructor
  · rw [scanInputs, foldl_scanStep_keys inputs ([], none) k]
    simp only [List.not_mem_nil, exists_false, false_or]
    constructor
    · rintro ⟨e, he, h2, h3, h4⟩
      refine ⟨h3, e, he, (getD_id_eq_iff e.idAttr k h3).mp h2, ?_⟩
      exact (getD_val_ne_iff e.valueAttr).mp h4
    · rintro ⟨h3, e, he, h2, hv⟩
      refine ⟨e, he, (getD_id_eq_iff e.idAttr k h3).mpr h2, h3, ?_⟩
      exact (getD_val_ne_iff e.valueAttr).mpr hv
  · intro sp info h
    unfold parseLoginPage at h
    rcases hs : (scanInputs inputs).2 with _ | salt <;> rw [hs] at h
    · exact absurd h (by simp)
    · injection h with h
      rw [← h]

/-- Claim C10 (witness). -/
theorem formData_entry_iff_witness :
    ((∃ v, ("u", v) ∈ (scanInputs [⟨some "u", some "x"⟩]).1) ↔
      ("u" ≠ "N/A" ∧ ∃ e ∈ [(⟨some "u", some "x"⟩ : InputEl)], e.idAttr = some "u" ∧
        ∃ v, e.valueAttr = some v ∧ v ≠ "N/A")) ∧
    (∀ sp info, parseLoginPage sp [(⟨some "u", some "x"⟩ : InputEl)] = .ok info →
      info.formData = (scanInputs [(⟨some "u", some "x"⟩ : InputEl)]).1) :=
  formData_entry_iff [⟨some "u", some "x"⟩] "u"

/-! ## Scan-status parsing: claims C3, C4, C8

The scanner `findErrcode` is related to a declarative reading of the
regex `window\.wx_errcode=(\d+)`: a match at position `i` captures a
nonempty maximal digit run right after the literal. -/

/-- A declarative match of `window\.wx_errcode=(\d+)` at position `i`
capturing `ds`. -/
def errcodeAt (cs : List Char) (i : Nat) (ds : List Char) : Prop :=
  ∃ rest, cs.drop i = "window.wx_errcode=".data ++ ds ++ rest ∧
    ds ≠ [] ∧ (∀ c ∈ ds, c.isDigit = true) ∧
    (∀ c, rest.head? = some c → c.isDigit = false)

lemma stripLit_of_append (l rest : List Char) : stripLit l (l ++ rest) = some rest := by
  induction l with
  | nil => rfl
  | cons c l ih => simp [stripLit, ih]

lemma stripLit_some (l : List Char) :
    ∀ cs r, stripLit l cs = some r → cs = l ++ r := by
  induction l with
  | nil =>
    intro cs r h
    simp only [stripLit, Option.some.injEq] at h
    simp [h]
  | cons c l ih =>
    intro cs r h
    rcases cs with _ | ⟨c2, cs⟩
    · exact absurd h (by simp [stripLit])
    · simp only [stripLit] at h
      by_cases hc : c2 = c
      · rw [if_pos hc] at h
        rw [hc, List.cons_append]
        exact congrArg _ (ih cs r h)
      · exact absurd h (by simp [if_neg hc])

lemma takeWhile_append_run (p : Char → Bool) (ds rest : List Char)
    (hds : ∀ c ∈ ds, p c = true)
    (hrest : ∀ c, rest.head? = some c → p c = false) :
    (ds ++ rest).takeWhile p = ds := by
  induction ds with
  | nil =>
    rcases rest with _ | ⟨r, rest⟩
    · rfl
    · simp [List.takeWhile_cons, hrest r rfl]
  | cons d ds ih =>
    simp only [List.cons_append, List.takeWhile_cons,
      hds d (List.mem_cons_self _ _), if_pos]
    rw [ih (fun c hc => hds c (List.mem_cons_of_mem _ hc))]

lemma head?_dropWhile_false (p : Char → Bool) (l : List Char) :
    ∀ c, (l.dropWhile p).head? = some c → p c = false := by
  induction l with
  | nil => intro c h; exact absurd h (by simp)
  | cons d l ih =>
    intro c h
    rw [List.dropWhile_cons] at h
    by_cases hd : p d
    · rw [if_pos hd] at h
      exact ih c h
    · rw [if_neg hd] at h
      simp only [List.head?_cons, Option.some.injEq] at h
      rw [← h]
      exact Bool.eq_false_iff.mpr hd

lemma errcodeAt_succ (c : Char) (l : List Char) (i : Nat) (ds : List Char) :
    errcodeAt (c :: l) (i + 1) ds ↔ errcodeAt l i ds := by
  unfold errcodeAt
  rw [List.drop_succ_cons]

lemma errcodeAt_zero_of_strip (cs after : List Char)
    (hstrip : stripLit "window.wx_errcode=".data cs = some after)
    (hne : after.takeWhile Char.isDigit ≠ []) :
    errcodeAt cs 0 (after.takeWhile Char.isDigit) := by
  have hcs := stripLit_some _ _ _ hstrip
  refine ⟨after.dropWhile Char.isDigit, ?_, hne, ?_, ?_⟩
  · rw [List.drop_zero, hcs, List.append_assoc, List.takeWhile_append_dropWhile]
  · exact fun c hc => List.mem_takeWhile_imp hc
  · exact head?_dropWhile_false _ after

/-- No declarative match at position 0 when the scanner's position-0
attempt fails. -/
lemma not_errcodeAt_zero (cs : List Char) (ds : List Char)
    (h : errcodeAt cs 0 ds) :
    ∃ after, stripLit "window.wx_errcode=".data cs = some after ∧
      after.takeWhile Char.isDigit = ds := by
  obtain ⟨rest, hdrop, hne, hdig, hrest⟩ := h
  rw [List.drop_zero] at hdrop
  subst hdrop
  rw [List.append_assoc]
  refine ⟨ds ++ rest, stripLit_of_append _ _, ?_⟩
  exact takeWhile_append_run _ ds rest hdig hrest

lemma findErrcode_of_leftmost (cs : List Char) :
    ∀ i ds, errcodeAt cs i ds → (∀ j ds2, errcodeAt cs j ds2 → i ≤ j) →
      findErrcode cs = some ds := by
  induction cs with
  | nil =>
    intro i ds h _
    obtain ⟨rest, hdrop, _, _, _⟩ := h
    rw [List.drop_nil] at hdrop
    exact absurd hdrop.symm (by simp)
  | cons c l ih =>
    intro i ds h hleft
    rcases hstrip : stripLit "window.wx_errcode=".data (c :: l) with _ | after
    · -- the literal does not start here: any match is at i ≥ 1
      have hnot0 : ∀ ds2, ¬ errcodeAt (c :: l) 0 ds2 := by
        intro ds2 h0
        obtain ⟨after2, hs2, _⟩ := not_errcodeAt_zero _ _ h0
        rw [hstrip] at hs2
        exact absurd hs2 (by simp)
      rcases i with _ | i2
      · exact absurd h (hnot0 ds)
      · rw [errcodeAt_succ] at h
        have hleft2 : ∀ j ds2, errcodeAt l j ds2 → i2 ≤ j := by
          intro j ds2 hj
          have := hleft (j + 1) ds2 ((errcodeAt_succ c l j ds2).mpr hj)
          omega
        show findErrcode (c :: l) = some ds
        unfold findErrcode
        rw [hstrip]
        exact ih i2 ds h hleft2
    · rcases hrun : after.takeWhile Char.isDigit with _ | ⟨d, ds2⟩
      · -- literal matches at 0 but no digit follows: no match at 0
        have hnot0 : ∀ ds2, ¬ errcodeAt (c :: l) 0 ds2 := by
          intro ds0 h0
          obtain ⟨after2, hs2, hds0⟩ := not_errcodeAt_zero _ _ h0
          rw [hstrip] at hs2
          injection hs2 with hs2
          obtain ⟨_, _, hne0, _, _⟩ := h0
          rw [← hs2, hrun] at hds0
          exact hne0 hds0.symm
        rcases i with _ | i2
        · exact absurd h (hnot0 ds)
        · rw [errcodeAt_succ] at h
          have hleft2 : ∀ j ds3, errcodeAt l j ds3 → i2 ≤ j := by
            intro j ds3 hj
            have := hleft (j + 1) ds3 ((errcodeAt_succ c l j ds3).mpr hj)
            omega
          show findErrcode (c :: l) = some ds
          unfold findErrcode
          rw [hstrip]
          change (if (after.takeWhile Char.isDigit).isEmpty then findErrcode l
            else some (after.takeWhile Char.isDigit)) = some ds
          rw [hrun]
          simp only [List.isEmpty_nil, if_true]
          exact ih i2 ds h hleft2
      · -- a genuine match at 0: the leftmost hypothesis forces i = 0
        have h0 : errcodeAt (c :: l) 0 (after.takeWhile Char.isDigit) := by
          refine errcodeAt_zero_of_strip _ _ hstrip (by rw [hrun]; simp)
        have hi0 : i = 0 := Nat.le_zero.mp (hleft 0 _ h0)
        subst hi0
        obtain ⟨after2, hs2, hds⟩ := not_errcodeAt_zero _ _ h
        rw [hstrip] at hs2
        injection hs2 with hs2
        rw [← hs2] at hds
        show findErrcode (c :: l) = some ds
        unfold findErrcode
        rw [hstrip]
        change (if (after.takeWhile Char.isDigit).isEmpty then findErrcode l
          else some (after.takeWhile Char.isDigit)) = some ds
        have hds2 : ds = d :: ds2 := by rw [← hds, hrun]
        rw [hrun, hds2]
        simp

lemma findErrcode_some_match (cs : List Char) :
    ∀ ds, findErrcode cs = some ds → ∃ i, errcodeAt cs i ds := by
  induction cs with
  | nil => intro ds h; exact absurd h (by simp [findErrcode])
  | cons c l ih =>
    intro ds h
    unfold findErrcode at h
    rcases hstrip : stripLit "window.wx_errcode=".data (c :: l) with _ | after <;>
      rw [hstrip] at h
    · obtain ⟨i, hi⟩ := ih ds h
      exact ⟨i + 1, (errcodeAt_succ c l i ds).mpr hi⟩
    · replace h : (if (after.takeWhile Char.isDigit).isEmpty then findErrcode l
          else some (after.takeWhile Char.isDigit)) = some ds := h
      by_cases hrun : (after.takeWhile Char.isDigit).isEmpty
      · rw [if_pos hrun] at h
        obtain ⟨i, hi⟩ := ih ds h
        exact ⟨i + 1, (errcodeAt_succ c l i ds).mpr hi⟩
      · rw [if_neg hrun] at h
        injection h with h
        subst h
        exact ⟨0, errcodeAt_zero_of_strip _ _ hstrip
          (by simpa [List.isEmpty_iff] using hrun)⟩

/-- Claim C3 (counterexample): the claim maps any other extracted integer
N to `Unknown(N)`, but a digit run exceeding `i32::MAX` fails the `i32`
parse and falls back to 0, producing `Unknown 0` instead of
`Unknown 2147483648`. -/
theorem parseScanStatus_overflow :
    parseScanStatus "window.wx_errcode=2147483648" =
      .ok ⟨.Unknown 0, none⟩ ∧
    ScanStatus.Unknown 2147483648 ≠ ScanStatus.Unknown 0 := by
  exact ⟨rfl, by decide⟩

/-- Claim C3 (amended): `parse_scan_status` extracts the digit run of the
leftmost `window.wx_errcode=<digits>` match, parses it as an `i32` with
fallback 0 on overflow, and maps 408 to Waiting, 404 to Scanned, 405 to
Confirmed, 402 to Expired and anything else to Unknown(code); total
absence of the pattern yields `Unknown 0` without an error; every
non-Confirmed result carries no `wx_code`. -/
theorem parseScanStatus_characterization (text : String) :
    (∀ i ds, errcodeAt text.data i ds →
      (∀ j ds2, errcodeAt text.data j ds2 → i ≤ j) →
      parseScanStatus text = .ok ⟨mapErrcode (parseI32OrZero ds),
        if mapErrcode (parseI32OrZero ds) = .Confirmed then findWxCode text.data
        else none⟩) ∧
    ((∀ i ds, ¬ errcodeAt text.data i ds) →
      parseScanStatus text = .ok ⟨.Unknown 0, none⟩) ∧
    (∀ r, parseScanStatus text = .ok r → r.status ≠ .Confirmed → r.wxCode = none) ∧
    (mapErrcode 408 = .Waiting ∧ mapErrcode 404 = .Scanned ∧
      mapErrcode 405 = .Confirmed ∧ mapErrcode 402 = .Expired ∧
      ∀ n : Int, n ≠ 408 → n ≠ 404 → n ≠ 405 → n ≠ 402 →
        mapErrcode n = .Unknown n) := by
  refine ⟨?_, ?_, ?_, by decide, by decide, by decide, by decide, ?_⟩
  · intro i ds hat hleft
    have hfind := findErrcode_of_leftmost text.data i ds hat hleft
    unfold parseScanStatus
    rw [hfind]
  · intro hnone
    have hfind : findErrcode text.data = none := by
      rcases hf : findErrcode text.data with _ | ds
      · rfl
      · obtain ⟨i, hi⟩ := findErrcode_some_match text.data ds hf
        exact absurd hi (hnone i ds)
    unfold parseScanStatus
    rw [hfind]
    exact rfl
  · intro r hok hnc
    unfold parseScanStatus at hok
    injection hok with hok
    rw [← hok] at hnc ⊢
    simp only at hnc ⊢
    rw [if_neg hnc]
  · intro n h1 h2 h3 h4
    simp [mapErrcode, h1, h2, h3, h4]

/-- Claim C3 (witness). -/
theorem parseScanStatus_characterization_witness :
    parseScanStatus "window.wx_errcode=404" = .ok ⟨.Scanned, none⟩ := by
  have h := (parseScanStatus_characterization "window.wx_errcode=404").1
    0 "404".data
    ⟨[], by decide, by decide, by decide, fun c hc => nomatch hc⟩
    (fun j ds2 _ => Nat.zero_le j)
  exact h

/-- Claim C4: only a Confirmed status carries a `wx_code`: the parser
attaches exactly the code extracted by `window\.wx_code=['"](.+?)['"]`,
and the `wechat_login` loop turns a Confirmed result without a code into
a `WeChatError` instead of succeeding. -/
theorem confirmed_requires_code (text : String) (r : ScanResult) (lc : Option String)
    (hok : parseScanStatus text = .ok r) (hc : r.status = .Confirmed) :
    r.wxCode = findWxCode text.data ∧
    (∀ code, r.wxCode = some code → pollStep lc r = .success code) ∧
    (r.wxCode = none →
      pollStep lc r = .failure (.WeChatError "Received 405 status but wx_code not found")) := by
  refine ⟨?_, ?_, ?_⟩
  · unfold parseScanStatus at hok
    injection hok with hok
    rw [← hok] at hc ⊢
    simp only at hc ⊢
    rw [if_pos hc]
  · intro code hcode
    simp [pollStep, hc, hcode]
  · intro hcode
    simp [pollStep, hc, hcode]

/-- Claim C4 (witness). -/
theorem confirmed_requires_code_witness :
    (⟨.Confirmed, some "XYZ123"⟩ : ScanResult).wxCode =
      findWxCode "window.wx_errcode=405;window.wx_code='XYZ123'".data ∧
    (∀ code, (⟨.Confirmed, some "XYZ123"⟩ : ScanResult).wxCode = some code →
      pollStep none ⟨.Confirmed, some "XYZ123"⟩ = .success code) ∧
    ((⟨.Confirmed, some "XYZ123"⟩ : ScanResult).wxCode = none →
      pollStep none ⟨.Confirmed, some "XYZ123"⟩ =
        .failure (.WeChatError "Received 405 status but wx_code not found")) :=
  confirmed_requires_code "window.wx_errcode=405;window.wx_code='XYZ123'"
    ⟨.Confirmed, some "XYZ123"⟩ none rfl rfl

/-- Once the state is `last_code = some "404"`, no later poll result ever
changes it: Waiting and Unknown keep it, Scanned rewrites the same value,
and terminal results leave the state untouched. -/
lemma lastCodeAfter_404 (rs : List ScanResult) :
    lastCodeAfter (some "404") rs = some "404" := by
  induction rs with
  | nil => rfl
  | cons r rest ih =>
    rcases r with ⟨st, wx⟩
    cases st <;>
      first
        | (simp only [lastCodeAfter, List.foldl_cons, pollStep] at ih ⊢; exact ih)
        | (rcases wx with _ | code <;>
            simp only [lastCodeAfter, List.foldl_cons, pollStep] at ih ⊢ <;> exact ih)

/-- Claim C8: in the `wechat_login` polling loop, once some response maps
to `Scanned`, the `last_code` state is `"404"` from then on — later
`Waiting` or `Unknown` responses never clear it — so every subsequent
poll URL carries `&last=404`. -/
theorem scanned_sets_last_code (pre post : List ScanResult) (r : ScanResult)
    (uuid : String) (ts : Nat) (hr : r.status = .Scanned) :
    lastCodeAfter none (pre ++ r :: post) = some "404" ∧
    buildPollUrl uuid ts (lastCodeAfter none (pre ++ r :: post)) =
      ("https://lp.open.weixin.qq.com/connect/l/qrconnect?uuid=" ++ uuid ++
        "&_=" ++ toString ts) ++ "&last=404" := by
  have h1 : lastCodeAfter none (pre ++ r :: post) = some "404" := by
    rcases r with ⟨st, wx⟩
    simp only at hr
    subst hr
    unfold lastCodeAfter
    rw [List.foldl_append, List.foldl_cons]
    exact lastCodeAfter_404 post
  refine ⟨h1, ?_⟩
  rw [h1]
  exact rfl

/-- Claim C8 (witness). -/
theorem scanned_sets_last_code_witness :
    lastCodeAfter none
      ([⟨.Waiting, none⟩] ++ ⟨.Scanned, none⟩ :: [⟨.Unknown 500, none⟩]) = some "404" ∧
    buildPollUrl "u" 17 (lastCodeAfter none
        ([⟨.Waiting, none⟩] ++ ⟨.Scanned, none⟩ :: [⟨.Unknown 500, none⟩])) =
      ("https://lp.open.weixin.qq.com/connect/l/qrconnect?uuid=" ++ "u" ++
        "&_=" ++ toString 17) ++ "&last=404" :=
  scanned_sets_last_code [⟨.Waiting, none⟩] [⟨.Unknown 500, none⟩]
    ⟨.Scanned, none⟩ "u" 17 rfl

/-! ## `encrypt_password` error path: claim C2 -/

/-- Claim C2 (counterexample): a 17-byte salt — a length outside
{16, 24, 32} — does not fail: the code trims the salt first, and the
trimmed 16-byte key selects AES-128 successfully. -/
theorem encryptPassword_raw_length_not_checked :
    (utf8Bytes "1234567890123456 ").length = 17 ∧
    ∃ out, encryptPasswordWith "ABCDEFGHJKMNPQRS" (String.mk (List.replicate 64 'a'))
      "password123" "1234567890123456 " = .ok out := by
  exact ⟨by decide, ⟨_, rfl⟩⟩

/-- Claim C2 (amended): `encrypt_password` fails with
`CryptoError("Invalid key length: n")` exactly when the byte length `n` of
the **trimmed** salt is outside {16, 24, 32}; the trimmed salt's bytes are
used directly as the cipher key, its length selecting AES-128/192/256. -/
theorem encryptPassword_invalid_key_length (iv rnd password salt : String)
    (h16 : (utf8Bytes (rustTrim salt)).length ≠ 16)
    (h24 : (utf8Bytes (rustTrim salt)).length ≠ 24)
    (h32 : (utf8Bytes (rustTrim salt)).length ≠ 32) :
    encryptPasswordWith iv rnd password salt =
      .error (.CryptoError ("Invalid key length: " ++
        toString (utf8Bytes (rustTrim salt)).length)) := by
  simp [encryptPasswordWith, h16, h24, h32]

/-! ## Byte bounds

Every quantity the cipher manipulates stays below 256; this backs both
the base64 round trip and the injectivity arguments. -/

def allLt256 (l : List Nat) : Prop := ∀ b ∈ l, b < 256

lemma xor_lt_256 {x y : Nat} (hx : x < 256) (hy : y < 256) : x ^^^ y < 256 := by
  have h := Nat.xor_lt_two_pow (n := 8) (by simpa using hx) (by simpa using hy)
  simpa using h

lemma xtime_lt (b : Nat) : xtime b < 256 := by
  unfold xtime
  apply xor_lt_256 (Nat.mod_lt _ (by norm_num))
  split <;> norm_num

lemma gmulGo_lt : ∀ (n a b acc : Nat), a < 256 → acc < 256 → gmulGo n a b acc < 256 := by
  intro n
  induction n with
  | zero => intro a b acc _ hacc; exact hacc
  | succ m ih =>
    intro a b acc ha hacc
    unfold gmulGo
    apply ih _ _ _ (xtime_lt a)
    split
    · exact xor_lt_256 hacc ha
    · exact hacc

lemma gmul_lt {a : Nat} (b : Nat) (ha : a < 256) : gmul a b < 256 :=
  gmulGo_lt 8 a b 0 ha (by norm_num)

lemma gpow254_lt {b : Nat} (hb : b < 256) : gpow254 b < 256 := by
  unfold gpow254
  exact gmul_lt _ (gmul_lt _ (gmul_lt _ (gmul_lt _ (gmul_lt _ (gmul_lt _ (gmul_lt _
    (gmul_lt _ hb)))))))

lemma rotl8_lt {x : Nat} (n : Nat) (hx : x < 256) : rotl8 x n < 256 := by
  unfold rotl8
  have h1 : x * 2 ^ n % 256 < 256 := Nat.mod_lt _ (by norm_num)
  have h2 : x / 2 ^ (8 - n) < 256 := lt_of_le_of_lt (Nat.div_le_self _ _) hx
  have := Nat.or_lt_two_pow (n := 8) (by simpa using h1) (by simpa using h2)
  simpa using this

lemma sbox_lt {b : Nat} (hb : b < 256) : sbox b < 256 := by
  unfold sbox
  have hi := gpow254_lt hb
  exact xor_lt_256 (xor_lt_256 (xor_lt_256 (xor_lt_256 (xor_lt_256 hi
    (rotl8_lt 1 hi)) (rotl8_lt 2 hi)) (rotl8_lt 3 hi)) (rotl8_lt 4 hi)) (by norm_num)

lemma rcon_lt (n : Nat) : rcon n < 256 := by
  cases n with
  | zero => norm_num [rcon]
  | succ m => exact xtime_lt _

lemma subBytes_lt {s : List Nat} (h : allLt256 s) : allLt256 (subBytes s) := by
  intro b hb
  obtain ⟨a, ha, rfl⟩ := List.mem_map.mp hb
  exact sbox_lt (h a ha)

lemma subWord_lt {s : List Nat} (h : allLt256 s) : allLt256 (subWord s) := by
  intro b hb
  obtain ⟨a, ha, rfl⟩ := List.mem_map.mp hb
  exact sbox_lt (h a ha)

lemma shiftRows_mem {s : List Nat} : ∀ x ∈ shiftRows s, x ∈ s := by
  unfold shiftRows
  split
  · intro x hx
    simp only [List.mem_cons, List.not_mem_nil, or_false] at hx ⊢
    tauto
  · exact fun x hx => hx

lemma rotWord_mem {s : List Nat} : ∀ x ∈ rotWord s, x ∈ s := by
  unfold rotWord
  split
  · intro x hx
    simp only [List.mem_cons, List.not_mem_nil, or_false] at hx ⊢
    tauto
  · exact fun x hx => hx

lemma g2_lt (x : Nat) : g2 x < 256 := xtime_lt x

lemma g3_lt {x : Nat} (hx : x < 256) : g3 x < 256 := xor_lt_256 (xtime_lt x) hx

lemma mixCol_lt {s : List Nat} (h : allLt256 s) : allLt256 (mixCol s) := by
  unfold mixCol
  split
  · rename_i a b c d
    have ha := h a (by simp)
    have hb := h b (by simp)
    have hc := h c (by simp)
    have hd := h d (by simp)
    intro x hx
    simp only [List.mem_cons, List.not_mem_nil, or_false] at hx
    rcases hx with rfl | rfl | rfl | rfl
    · exact xor_lt_256 (xor_lt_256 (xor_lt_256 (g2_lt a) (g3_lt hb)) hc) hd
    · exact xor_lt_256 (xor_lt_256 (xor_lt_256 ha (g2_lt b)) (g3_lt hc)) hd
    · exact xor_lt_256 (xor_lt_256 (xor_lt_256 ha hb) (g2_lt c)) (g3_lt hd)
    · exact xor_lt_256 (xor_lt_256 (xor_lt_256 (g3_lt ha) hb) hc) (g2_lt d)
  · exact h

lemma mixColumns_lt {s : List Nat} (h : allLt256 s) : allLt256 (mixColumns s) := by
  unfold mixColumns
  split
  · rename_i s0 s1 s2 s3 s4 s5 s6 s7 s8 s9 s10 s11 s12 s13 s14 s15
    have hsub : ∀ l : List Nat,
        (∀ x ∈ l, x ∈ [s0, s1, s2, s3, s4, s5, s6, s7, s8, s9, s10, s11, s12, s13, s14, s15]) →
        allLt256 (mixCol l) :=
      fun l hl => mixCol_lt (fun x hx => h x (hl x hx))
    intro x hx
    have hx4 : x ∈ mixCol [s0, s1, s2, s3] ∨ x ∈ mixCol [s4, s5, s6, s7] ∨
        x ∈ mixCol [s8, s9, s10, s11] ∨ x ∈ mixCol [s12, s13, s14, s15] := by
      simp only [List.mem_append] at hx
      tauto
    rcases hx4 with hx1 | hx1 | hx1 | hx1 <;>
      exact hsub _ (by
        intro y hy
        simp only [List.mem_cons, List.not_mem_nil, or_false] at hy ⊢
        tauto) x hx1
  · exact h

lemma zipXor_lt : ∀ {a b : List Nat}, allLt256 a → allLt256 b → allLt256 (zipXor a b) := by
  intro a
  induction a with
  | nil => intro b _ _ x hx; exact absurd hx (by simp [zipXor])
  | cons a0 a ih =>
    intro b ha hb x hx
    rcases b with _ | ⟨b0, b⟩
    · exact absurd hx (by simp [zipXor])
    · rcases List.mem_cons.mp hx with rfl | hx2
      · exact xor_lt_256 (ha a0 (by simp)) (hb b0 (by simp))
      · exact ih (fun y hy => ha y (List.mem_cons_of_mem _ hy))
          (fun y hy => hb y (List.mem_cons_of_mem _ hy)) x hx2

lemma encryptBlockGo_lt : ∀ (rks : List (List Nat)) (s : List Nat),
    allLt256 s → (∀ k ∈ rks, allLt256 k) → allLt256 (encryptBlockGo s rks) := by
  intro rks
  induction rks with
  | nil => intro s hs _; exact hs
  | cons k rest ih =>
    intro s hs hk
    rcases rest with _ | ⟨k2, rest2⟩
    · exact zipXor_lt (fun x hx => subBytes_lt hs x (shiftRows_mem x hx))
        (hk k (by simp))
    · exact ih _ (zipXor_lt (mixColumns_lt (fun x hx => subBytes_lt hs x (shiftRows_mem x hx)))
        (hk k (by simp))) (fun k3 hk3 => hk k3 (List.mem_cons_of_mem _ hk3))

lemma encryptBlock_lt {rks : List (List Nat)} {s : List Nat}
    (hs : allLt256 s) (hk : ∀ k ∈ rks, allLt256 k) : allLt256 (encryptBlock rks s) := by
  unfold encryptBlock
  rcases rks with _ | ⟨k0, rest⟩
  · exact hs
  · exact encryptBlockGo_lt rest _ (zipXor_lt hs (hk k0 (by simp)))
      (fun k hk2 => hk k (List.mem_cons_of_mem _ hk2))

/-! ## Key-expansion invariants: every round key is 16 bounded bytes -/

lemma getLastD_mem : ∀ (l : List (List Nat)) (d : List Nat), l ≠ [] → l.getLastD d ∈ l := by
  intro l
  induction l with
  | nil => intro d h; exact absurd rfl h
  | cons a rest ih =>
    intro d _
    rcases rest with _ | ⟨b, rest2⟩
    · simp [List.getLastD]
    · rw [List.getLastD_cons]
      exact List.mem_cons_of_mem _ (ih a (by simp))

lemma getD_mem (l : List (List Nat)) (j : Nat) (h : j < l.length) : l.getD j [] ∈ l := by
  rw [List.getD_eq_getElem l [] h]
  exact List.getElem_mem _

lemma rotWord_length (w : List Nat) : (rotWord w).length = w.length := by
  unfold rotWord
  split <;> rfl

lemma zipXor_length (a b : List Nat) : (zipXor a b).length = min a.length b.length :=
  List.length_zipWith ..

/-- The key-expansion loop keeps every word four bounded bytes long and
adds one word per step. -/
lemma expandGo_invariant (nk : Nat) (hnk : 1 ≤ nk) : ∀ (fuel : Nat) (acc : List (List Nat)),
    acc ≠ [] → (∀ w ∈ acc, w.length = 4 ∧ allLt256 w) →
    expandGo nk fuel acc ≠ [] ∧
      (∀ w ∈ expandGo nk fuel acc, w.length = 4 ∧ allLt256 w) ∧
      (expandGo nk fuel acc).length = acc.length + fuel := by
  intro fuel
  induction fuel with
  | zero => intro acc h1 h2; exact ⟨h1, h2, rfl⟩
  | succ n ih =>
    intro acc h1 h2
    have hprev := h2 _ (getLastD_mem acc [] h1)
    have hgd : acc.getD (acc.length - nk) [] ∈ acc :=
      getD_mem acc _ (by
        have : 0 < acc.length := List.length_pos.mpr h1
        omega)
    have hold := h2 _ hgd
    have htemp : ∀ t, t = (if acc.length % nk = 0 then
          zipXor (subWord (rotWord (acc.getLastD [])))
            [rcon (acc.length / nk - 1), 0, 0, 0]
        else if 6 < nk ∧ acc.length % nk = 4 then subWord (acc.getLastD [])
        else acc.getLastD []) → t.length = 4 ∧ allLt256 t := by
      intro t ht
      subst ht
      have hp1 := hprev.1
      have hp2 := hprev.2
      split
      · constructor
        · rw [zipXor_length]
          simp only [subWord, List.length_map, rotWord_length]
          rw [hp1]
          rfl
        · exact zipXor_lt (subWord_lt (fun x hx => hprev.2 x (rotWord_mem x hx)))
            (by
              intro x hx
              simp only [List.mem_cons, List.not_mem_nil, or_false] at hx
              rcases hx with rfl | rfl | rfl | rfl
              · exact rcon_lt _
              all_goals norm_num)
      · split
        · refine ⟨?_, subWord_lt hp2⟩
          simp only [subWord, List.length_map]
          exact hp1
        · exact hprev
    have hnew := htemp _ rfl
    have hword : (zipXor (acc.getD (acc.length - nk) [])
        (if acc.length % nk = 0 then
          zipXor (subWord (rotWord (acc.getLastD [])))
            [rcon (acc.length / nk - 1), 0, 0, 0]
        else if 6 < nk ∧ acc.length % nk = 4 then subWord (acc.getLastD [])
        else acc.getLastD [])).length = 4 ∧
        allLt256 (zipXor (acc.getD (acc.length - nk) [])
        (if acc.length % nk = 0 then
          zipXor (subWord (rotWord (acc.getLastD [])))
            [rcon (acc.length / nk - 1), 0, 0, 0]
        else if 6 < nk ∧ acc.length % nk = 4 then subWord (acc.getLastD [])
        else acc.getLastD [])) := by
      constructor
      · rw [zipXor_length, hold.1, hnew.1]
        exact Nat.min_self 4
      · exact zipXor_lt hold.2 hnew.2
    have hstep := ih (acc ++ [zipXor (acc.getD (acc.length - nk) [])
        (if acc.length % nk = 0 then
          zipXor (subWord (rotWord (acc.getLastD [])))
            [rcon (acc.length / nk - 1), 0, 0, 0]
        else if 6 < nk ∧ acc.length % nk = 4 then subWord (acc.getLastD [])
        else acc.getLastD [])])
      (by simp)
      (by
        intro w hw
        rcases List.mem_append.mp hw with hw | hw
        · exact h2 w hw
        · simp only [List.mem_cons, List.not_mem_nil, or_false] at hw
          rw [hw]
          exact hword)
    refine ⟨hstep.1, hstep.2.1, ?_⟩
    rw [show expandGo nk (n + 1) acc = expandGo nk n (acc ++ [zipXor
        (acc.getD (acc.length - nk) [])
        (if acc.length % nk = 0 then
          zipXor (subWord (rotWord (acc.getLastD [])))
            [rcon (acc.length / nk - 1), 0, 0, 0]
        else if 6 < nk ∧ acc.length % nk = 4 then subWord (acc.getLastD [])
        else acc.getLastD [])]) from rfl]
    rw [hstep.2.2]
    simp
    omega

lemma chunks4_all4_fuel {α : Type} (N : Nat) : ∀ l : List α, l.length ≤ N →
    l.length % 4 = 0 → ∀ ch ∈ chunks4 l, ch.length = 4 := by
  induction N with
  | zero =>
    intro l hl _ ch hch
    have hnil : l = [] := List.eq_nil_of_length_eq_zero (by omega)
    subst hnil
    simp [chunks4] at hch
  | succ n ih =>
    intro l hl hmod ch hch
    rcases l with _ | ⟨a, rest⟩
    · simp [chunks4] at hch
    · rw [chunks4] at hch
      rcases List.mem_cons.mp hch with rfl | hch2
      · rw [List.length_take]
        simp only [List.length_cons] at hmod ⊢
        omega
      · apply ih (rest.drop 3) ?_ ?_ ch hch2
        · rw [List.length_drop]
          simp only [List.length_cons] at hl
          omega
        · rw [List.length_drop]
          simp only [List.length_cons] at hmod
          omega

lemma chunks4_all4 {α : Type} (l : List α) (hmod : l.length % 4 = 0) :
    ∀ ch ∈ chunks4 l, ch.length = 4 :=
  chunks4_all4_fuel l.length l le_rfl hmod

lemma chunks4_mem_fuel {α : Type} (N : Nat) : ∀ l : List α, l.length ≤ N →
    ∀ ch ∈ chunks4 l, ∀ x ∈ ch, x ∈ l := by
  induction N with
  | zero =>
    intro l hl ch hch
    have hnil : l = [] := List.eq_nil_of_length_eq_zero (by omega)
    subst hnil
    simp [chunks4] at hch
  | succ n ih =>
    intro l hl ch hch x hx
    rcases l with _ | ⟨a, rest⟩
    · simp [chunks4] at hch
    · rw [chunks4] at hch
      rcases List.mem_cons.mp hch with rfl | hch2
      · exact List.mem_of_mem_take hx
      · have := ih (rest.drop 3) (by
          rw [List.length_drop]
          simp only [List.length_cons] at hl
          omega) ch hch2 x hx
        exact List.mem_cons_of_mem _ (List.mem_of_mem_drop this)

lemma chunks4_mem {α : Type} (l : List α) : ∀ ch ∈ chunks4 l, ∀ x ∈ ch, x ∈ l :=
  chunks4_mem_fuel l.length l le_rfl

lemma chunks4_count_fuel {α : Type} (N : Nat) : ∀ l : List α, l.length ≤ N →
    l.length % 4 = 0 → (chunks4 l).length = l.length / 4 := by
  induction N with
  | zero =>
    intro l hl _
    have hnil : l = [] := List.eq_nil_of_length_eq_zero (by omega)
    subst hnil
    simp [chunks4]
  | succ n ih =>
    intro l hl hmod
    rcases l with _ | ⟨a, rest⟩
    · simp [chunks4]
    · rw [chunks4]
      simp only [List.length_cons] at hl hmod ⊢
      rw [ih (rest.drop 3)
        (by rw [List.length_drop]; omega)
        (by rw [List.length_drop]; omega)]
      rw [List.length_drop]
      omega

lemma chunks4_count {α : Type} (l : List α) (hmod : l.length % 4 = 0) :
    (chunks4 l).length = l.length / 4 :=
  chunks4_count_fuel l.length l le_rfl hmod

lemma exists_len4 {α : Type} (s : List α) (h : s.length = 4) :
    ∃ a b c d, s = [a, b, c, d] := by
  rcases s with _ | ⟨a, s⟩
  · simp at h
  rcases s with _ | ⟨b, s⟩
  · simp at h
  rcases s with _ | ⟨c, s⟩
  · simp at h
  rcases s with _ | ⟨d, s⟩
  · simp at h
  rcases s with _ | ⟨e, s⟩
  · exact ⟨a, b, c, d, rfl⟩
  · simp at h

/-- Every round key produced by `expandKey` is a list of 16 bounded
bytes. -/
lemma expandKey_rk (nk nr : Nat) (key : List Nat) (hnk : 1 ≤ nk)
    (hnk2 : nk ≤ 4 * (nr + 1)) (hkey : key.length = 4 * nk) (hkeyb : allLt256 key) :
    ∀ k ∈ expandKey nk nr key, k.length = 16 ∧ allLt256 k := by
  intro k hk
  unfold expandKey at hk
  obtain ⟨ch, hch, rfl⟩ := List.mem_map.mp hk
  have hkw : ∀ w ∈ chunks4 key, w.length = 4 ∧ allLt256 w := by
    intro w hw
    exact ⟨chunks4_all4 key (by omega) w hw,
      fun x hx => hkeyb x (chunks4_mem key w hw x hx)⟩
  have hne : chunks4 key ≠ [] := by
    rcases key with _ | ⟨a, rest⟩
    · simp at hkey
      omega
    · rw [chunks4]
      simp
  have hinv := expandGo_invariant nk hnk (4 * (nr + 1) - nk) (chunks4 key) hne hkw
  have hcount : (chunks4 key).length = nk := by
    rw [chunks4_count key (by omega), hkey]
    omega
  have hwmod : (expandGo nk (4 * (nr + 1) - nk) (chunks4 key)).length % 4 = 0 := by
    rw [hinv.2.2, hcount]
    omega
  have hch4 : ch.length = 4 :=
    chunks4_all4 _ hwmod ch hch
  have hchw : ∀ w ∈ ch, w.length = 4 ∧ allLt256 w :=
    fun w hw2 => hinv.2.1 w (chunks4_mem _ ch hch w hw2)
  obtain ⟨w0, w1, w2, w3, rfl⟩ := exists_len4 ch hch4
  constructor
  · have h0 := (hchw w0 (by simp)).1
    have h1 := (hchw w1 (by simp)).1
    have h2 := (hchw w2 (by simp)).1
    have h3 := (hchw w3 (by simp)).1
    simp [h0, h1, h2, h3]
  · intro x hx
    rw [List.mem_flatten] at hx
    obtain ⟨w, hw2, hxw⟩ := hx
    exact (hchw w hw2).2 x hxw

/-! ## Block and CBC lengths -/

lemma exists_len16 {α : Type} (s : List α) (h : s.length = 16) :
    ∃ a0 a1 a2 a3 a4 a5 a6 a7 a8 a9 a10 a11 a12 a13 a14 a15,
      s = [a0, a1, a2, a3, a4, a5, a6, a7, a8, a9, a10, a11, a12, a13, a14, a15] := by
  rcases s with _ | ⟨a0, s⟩; · simp at h
  rcases s with _ | ⟨a1, s⟩; · simp at h
  rcases s with _ | ⟨a2, s⟩; · simp at h
  rcases s with _ | ⟨a3, s⟩; · simp at h
  rcases s with _ | ⟨a4, s⟩; · simp at h
  rcases s with _ | ⟨a5, s⟩; · simp at h
  rcases s with _ | ⟨a6, s⟩; · simp at h
  rcases s with _ | ⟨a7, s⟩; · simp at h
  rcases s with _ | ⟨a8, s⟩; · simp at h
  rcases s with _ | ⟨a9, s⟩; · simp at h
  rcases s with _ | ⟨a10, s⟩; · simp at h
  rcases s with _ | ⟨a11, s⟩; · simp at h
  rcases s with _ | ⟨a12, s⟩; · simp at h
  rcases s with _ | ⟨a13, s⟩; · simp at h
  rcases s with _ | ⟨a14, s⟩; · simp at h
  rcases s with _ | ⟨a15, s⟩; · simp at h
  rcases s with _ | ⟨a16, s⟩
  · exact ⟨a0, a1, a2, a3, a4, a5, a6, a7, a8, a9, a10, a11, a12, a13, a14, a15, rfl⟩
  · simp at h

lemma shiftRows_length {s : List Nat} (h : s.length = 16) : (shiftRows s).length = 16 := by
  obtain ⟨a0, a1, a2, a3, a4, a5, a6, a7, a8, a9, a10, a11, a12, a13, a14, a15, rfl⟩ :=
    exists_len16 s h
  rfl

lemma mixColumns_length {s : List Nat} (h : s.length = 16) : (mixColumns s).length = 16 := by
  obtain ⟨a0, a1, a2, a3, a4, a5, a6, a7, a8, a9, a10, a11, a12, a13, a14, a15, rfl⟩ :=
    exists_len16 s h
  rfl

lemma subBytes_length (s : List Nat) : (subBytes s).length = s.length :=
  List.length_map ..

lemma encryptBlockGo_length : ∀ (rks : List (List Nat)) (s : List Nat),
    s.length = 16 → (∀ k ∈ rks, k.length = 16) → (encryptBlockGo s rks).length = 16 := by
  intro rks
  induction rks with
  | nil => intro s hs _; exact hs
  | cons k rest ih =>
    intro s hs hk
    rcases rest with _ | ⟨k2, rest2⟩
    · show (zipXor (shiftRows (subBytes s)) k).length = 16
      rw [zipXor_length, shiftRows_length (by rw [subBytes_length]; exact hs),
        hk k (by simp)]
      rfl
    · show (encryptBlockGo (zipXor (mixColumns (shiftRows (subBytes s))) k) (k2 :: rest2)).length = 16
      apply ih
      · rw [zipXor_length,
          mixColumns_length (shiftRows_length (by rw [subBytes_length]; exact hs)),
          hk k (by simp)]
        rfl
      · exact fun k3 hk3 => hk k3 (List.mem_cons_of_mem _ hk3)

lemma encryptBlock_length {rks : List (List Nat)} {s : List Nat}
    (hs : s.length = 16) (hk : ∀ k ∈ rks, k.length = 16) :
    (encryptBlock rks s).length = 16 := by
  unfold encryptBlock
  rcases rks with _ | ⟨k0, rest⟩
  · exact hs
  · apply encryptBlockGo_length
    · rw [zipXor_length, hs, hk k0 (by simp)]
      rfl
    · exact fun k hk2 => hk k (List.mem_cons_of_mem _ hk2)

lemma cbcEnc_fuel (rks : List (List Nat)) (hk : ∀ k ∈ rks, k.length = 16)
    (hkb : ∀ k ∈ rks, allLt256 k) (N : Nat) :
    ∀ data civ, data.length ≤ N → civ.length = 16 → allLt256 civ →
      data.length % 16 = 0 → allLt256 data →
      (cbcEnc rks civ data).length = data.length ∧ allLt256 (cbcEnc rks civ data) := by
  induction N with
  | zero =>
    intro data civ hd _ _ _ _
    have hnil : data = [] := List.eq_nil_of_length_eq_zero (by omega)
    subst hnil
    constructor <;> simp [cbcEnc, allLt256]
  | succ n ih =>
    intro data civ hd hciv hcivb hmod hdb
    rcases data with _ | ⟨a, rest⟩
    · constructor <;> simp [cbcEnc, allLt256]
    · have htk : ((a :: rest).take 16).length = 16 := by
        rw [List.length_take]
        simp only [List.length_cons] at hmod ⊢
        omega
      have hblock_len : (encryptBlock rks (zipXor ((a :: rest).take 16) civ)).length = 16 :=
        encryptBlock_length (by rw [zipXor_length, htk, hciv]; rfl) hk
      have hblock_lt : allLt256 (encryptBlock rks (zipXor ((a :: rest).take 16) civ)) :=
        encryptBlock_lt
          (zipXor_lt (fun x hx => hdb x (List.mem_of_mem_take hx)) hcivb) hkb
      have hrest := ih (rest.drop 15) (encryptBlock rks (zipXor ((a :: rest).take 16) civ))
        (by
          rw [List.length_drop]
          simp only [List.length_cons] at hd
          omega)
        hblock_len hblock_lt
        (by
          rw [List.length_drop]
          simp only [List.length_cons] at hmod
          omega)
        (fun x hx => hdb x (List.mem_cons_of_mem _ (List.mem_of_mem_drop hx)))
      rw [cbcEnc]
      constructor
      · rw [List.length_append, hblock_len, hrest.1]
        rw [List.length_drop]
        simp only [List.length_cons] at hmod ⊢
        omega
      · intro x hx
        rcases List.mem_append.mp hx with hx | hx
        · exact hblock_lt x hx
        · exact hrest.2 x hx

lemma cbcEnc_spec (rks : List (List Nat)) (data civ : List Nat)
    (hk : ∀ k ∈ rks, k.length = 16) (hkb : ∀ k ∈ rks, allLt256 k)
    (hciv : civ.length = 16) (hcivb : allLt256 civ)
    (hmod : data.length % 16 = 0) (hdb : allLt256 data) :
    (cbcEnc rks civ data).length = data.length ∧ allLt256 (cbcEnc rks civ data) :=
  cbcEnc_fuel rks hk hkb data.length data civ le_rfl hciv hcivb hmod hdb

/-! ## UTF-8 facts -/

lemma utf8Bytes_append (s t : String) :
    utf8Bytes (s ++ t) = utf8Bytes s ++ utf8Bytes t := by
  unfold utf8Bytes
  rw [String.data_append, List.map_append, List.flatten_append]

lemma charUtf8_ascii {c : Char} (h : c.toNat < 128) : charUtf8 c = [c.toNat] := by
  unfold charUtf8
  rw [if_pos h]

lemma charUtf8_lt (c : Char) : allLt256 (charUtf8 c) := by
  have hval : c.toNat < 1114112 := by
    have hv := c.valid
    have he : c.toNat = c.val.toNat := rfl
    rcases hv with h | ⟨_, h⟩ <;> omega
  intro b hb
  unfold charUtf8 at hb
  by_cases h1 : c.toNat < 128
  · rw [if_pos h1] at hb
    simp only [List.mem_cons, List.not_mem_nil, or_false] at hb
    omega
  · rw [if_neg h1] at hb
    by_cases h2 : c.toNat < 2048
    · rw [if_pos h2] at hb
      simp only [List.mem_cons, List.not_mem_nil, or_false] at hb
      rcases hb with rfl | rfl <;> omega
    · rw [if_neg h2] at hb
      by_cases h3 : c.toNat < 65536
      · rw [if_pos h3] at hb
        simp only [List.mem_cons, List.not_mem_nil, or_false] at hb
        rcases hb with rfl | rfl | rfl <;> omega
      · rw [if_neg h3] at hb
        simp only [List.mem_cons, List.not_mem_nil, or_false] at hb
        rcases hb with rfl | rfl | rfl | rfl <;> omega

lemma utf8Bytes_lt (s : String) : allLt256 (utf8Bytes s) := by
  intro b hb
  unfold utf8Bytes at hb
  rw [List.mem_flatten] at hb
  obtain ⟨l, hl, hbl⟩ := hb
  obtain ⟨c, _, rfl⟩ := List.mem_map.mp hl
  exact charUtf8_lt c b hbl

lemma aesChars_ascii : ∀ c ∈ aesChars, c.toNat < 128 := by decide

lemma utf8len_list (l : List Char) (h : ∀ c ∈ l, c ∈ aesChars) :
    ((l.map charUtf8).flatten).length = l.length := by
  induction l with
  | nil => simp
  | cons c rest ih =>
    simp only [List.map_cons, List.flatten_cons, List.length_append, List.length_cons]
    rw [charUtf8_ascii (aesChars_ascii c (h c (by simp))),
      ih (fun x hx => h x (List.mem_cons_of_mem _ hx))]
    simp only [List.length_singleton]
    omega

lemma utf8Bytes_length_alphabet (s : String) (h : ∀ c ∈ s.data, c ∈ aesChars) :
    (utf8Bytes s).length = s.data.length :=
  utf8len_list s.data h

/-! ## Base64 round trip -/

lemma b64Val_b64Char : ∀ n, n < 64 → b64Val (b64Char n) = some n := by decide

lemma b64Char_ne_eq : ∀ n, n < 64 → b64Char n ≠ '=' := by decide

lemma b64_roundtrip_fuel (N : Nat) : ∀ bs : List Nat, bs.length ≤ N → allLt256 bs →
    b64DecList (b64EncList bs) = some bs := by
  induction N with
  | zero =>
    intro bs hlen _
    have hnil : bs = [] := List.eq_nil_of_length_eq_zero (by omega)
    subst hnil
    rfl
  | succ n ih =>
    intro bs hlen hb
    rcases bs with _ | ⟨a, _ | ⟨b, _ | ⟨c, l⟩⟩⟩
    · rfl
    · have ha := hb a (by simp)
      have h1 : b64Val (b64Char (a / 4)) = some (a / 4) := b64Val_b64Char _ (by omega)
      have h2 : b64Val (b64Char (a % 4 * 16)) = some (a % 4 * 16) :=
        b64Val_b64Char _ (by omega)
      show b64DecList [b64Char (a / 4), b64Char (a % 4 * 16), '=', '='] = some [a]
      simp only [b64DecList, h1, h2, if_pos rfl, and_self, reduceIte]
      have harith : a / 4 * 4 + a % 4 * 16 / 16 = a := by omega
      rw [harith]
    · have ha := hb a (by simp)
      have hbb := hb b (by simp)
      have h1 : b64Val (b64Char (a / 4)) = some (a / 4) := b64Val_b64Char _ (by omega)
      have h2 : b64Val (b64Char (a % 4 * 16 + b / 16)) = some (a % 4 * 16 + b / 16) :=
        b64Val_b64Char _ (by omega)
      have h3 : b64Val (b64Char (b % 16 * 4)) = some (b % 16 * 4) :=
        b64Val_b64Char _ (by omega)
      have hne : b64Char (b % 16 * 4) ≠ '=' := b64Char_ne_eq _ (by omega)
      show b64DecList [b64Char (a / 4), b64Char (a % 4 * 16 + b / 16),
        b64Char (b % 16 * 4), '='] = some [a, b]
      simp only [b64DecList, h1, h2, h3, if_neg hne, if_pos rfl, reduceIte]
      have har1 : a / 4 * 4 + (a % 4 * 16 + b / 16) / 16 = a := by omega
      have har2 : (a % 4 * 16 + b / 16) % 16 * 16 + b % 16 * 4 / 4 = b := by omega
      rw [har1, har2]
    · have ha := hb a (by simp)
      have hbb := hb b (by simp)
      have hc := hb c (by simp)
      have h1 : b64Val (b64Char (a / 4)) = some (a / 4) := b64Val_b64Char _ (by omega)
      have h2 : b64Val (b64Char (a % 4 * 16 + b / 16)) = some (a % 4 * 16 + b / 16) :=
        b64Val_b64Char _ (by omega)
      have h3 : b64Val (b64Char (b % 16 * 4 + c / 64)) = some (b % 16 * 4 + c / 64) :=
        b64Val_b64Char _ (by omega)
      have h4 : b64Val (b64Char (c % 64)) = some (c % 64) := b64Val_b64Char _ (by omega)
      have hne3 : b64Char (b % 16 * 4 + c / 64) ≠ '=' := b64Char_ne_eq _ (by omega)
      have hne4 : b64Char (c % 64) ≠ '=' := b64Char_ne_eq _ (by omega)
      have hih : b64DecList (b64EncList l) = some l :=
        ih l (by simp only [List.length_cons] at hlen; omega)
          (fun x hx => hb x (by simp [hx]))
      show b64DecList (b64Char (a / 4) :: b64Char (a % 4 * 16 + b / 16) ::
        b64Char (b % 16 * 4 + c / 64) :: b64Char (c % 64) :: b64EncList l) =
        some (a :: b :: c :: l)
      simp only [b64DecList, h1, h2, h3, h4, hih, if_neg hne3, if_neg hne4]
      have har1 : a / 4 * 4 + (a % 4 * 16 + b / 16) / 16 = a := by omega
      have har2 : (a % 4 * 16 + b / 16) % 16 * 16 + (b % 16 * 4 + c / 64) / 4 = b := by
        omega
      have har3 : (b % 16 * 4 + c / 64) % 4 * 64 + c % 64 = c := by omega
      rw [har1, har2, har3]

lemma b64_roundtrip (bs : List Nat) (hb : allLt256 bs) :
    b64DecList (b64EncList bs) = some bs :=
  b64_roundtrip_fuel bs.length bs le_rfl hb

/-! ## `encrypt_password` success path: claim C1 -/

lemma encrypt_branch_spec (nk nr : Nat) (key ivb padded : List Nat)
    (hnk : 1 ≤ nk) (hnk2 : nk ≤ 4 * (nr + 1)) (hkl : key.length = 4 * nk)
    (hkb : allLt256 key) (hivl : ivb.length = 16) (hivb : allLt256 ivb)
    (hpl : padded.length % 16 = 0) (hpb : allLt256 padded) :
    (cbcEnc (expandKey nk nr key) ivb padded).length = padded.length ∧
      allLt256 (cbcEnc (expandKey nk nr key) ivb padded) := by
  have hrk := expandKey_rk nk nr key hnk hnk2 hkl hkb
  exact cbcEnc_spec _ _ _ (fun k hk => (hrk k hk).1) (fun k hk => (hrk k hk).2)
    hivl hivb hpl hpb

/-- Claim C1 (counterexample): a salt of raw byte length 16 need not
succeed: sixteen spaces trim to the empty string, so `encrypt_password`
fails with an invalid key length of 0. -/
theorem encryptPassword_whitespace_salt_fails :
    (utf8Bytes (String.mk (List.replicate 16 ' '))).length = 16 ∧
    encryptPasswordWith "ABCDEFGHJKMNPQRS" (String.mk (List.replicate 64 'a')) "x"
      (String.mk (List.replicate 16 ' ')) =
      .error (.CryptoError "Invalid key length: 0") := by
  exact ⟨by decide, rfl⟩

/-- Claim C1 (amended): for every password and every salt whose TRIMMED
byte length is 16, 24 or 32, `encrypt_password` returns Ok of a base64
string that decodes to a byte length that is a positive multiple of 16,
equal to `16 * ceil((64 + len(P) + 1) / 16)` — the 64-character random
run plus the password, padded by PKCS7 with a full extra block when the
length is already a multiple of 16. -/
theorem encryptPassword_ok_length (password salt iv rnd : String)
    (hsalt : (utf8Bytes (rustTrim salt)).length = 16 ∨
      (utf8Bytes (rustTrim salt)).length = 24 ∨
      (utf8Bytes (rustTrim salt)).length = 32)
    (hiv_len : iv.data.length = 16) (hiv_ab : ∀ c ∈ iv.data, c ∈ aesChars)
    (hrnd_len : rnd.data.length = 64) (hrnd_ab : ∀ c ∈ rnd.data, c ∈ aesChars) :
    ∃ ct, encryptPasswordWith iv rnd password salt = .ok (base64Enc ct) ∧
      base64Dec (base64Enc ct) = some ct ∧
      ct.length = 16 * ((64 + (utf8Bytes password).length + 1 + 15) / 16) ∧
      0 < ct.length ∧ ct.length % 16 = 0 := by
  have hivl : (utf8Bytes iv).length = 16 := by
    rw [utf8Bytes_length_alphabet iv hiv_ab, hiv_len]
  have hivb := utf8Bytes_lt iv
  have hplain : (utf8Bytes (rnd ++ password)).length =
      64 + (utf8Bytes password).length := by
    rw [utf8Bytes_append, List.length_append, utf8Bytes_length_alphabet rnd hrnd_ab,
      hrnd_len]
  have hpb : allLt256 (utf8Bytes (rnd ++ password) ++
      List.replicate (16 - (utf8Bytes (rnd ++ password)).length % 16)
        (16 - (utf8Bytes (rnd ++ password)).length % 16)) := by
    intro x hx
    rcases List.mem_append.mp hx with hx | hx
    · exact utf8Bytes_lt _ x hx
    · have := List.eq_of_mem_replicate hx
      omega
  have hpl : (utf8Bytes (rnd ++ password) ++
      List.replicate (16 - (utf8Bytes (rnd ++ password)).length % 16)
        (16 - (utf8Bytes (rnd ++ password)).length % 16)).length % 16 = 0 := by
    rw [List.length_append, List.length_replicate]
    omega
  have hplen : (utf8Bytes (rnd ++ password) ++
      List.replicate (16 - (utf8Bytes (rnd ++ password)).length % 16)
        (16 - (utf8Bytes (rnd ++ password)).length % 16)).length =
      16 * ((64 + (utf8Bytes password).length + 1 + 15) / 16) := by
    rw [List.length_append, List.length_replicate, hplain]
    omega
  have hkb := utf8Bytes_lt (rustTrim salt)
  rcases hsalt with hs | hs | hs
  · have hspec := encrypt_branch_spec 4 10 (utf8Bytes (rustTrim salt)) (utf8Bytes iv) _
      (by norm_num) (by norm_num) (by rw [hs]) hkb hivl hivb hpl hpb
    refine ⟨cbcEnc (expandKey 4 10 (utf8Bytes (rustTrim salt))) (utf8Bytes iv)
      (utf8Bytes (rnd ++ password) ++
        List.replicate (16 - (utf8Bytes (rnd ++ password)).length % 16)
          (16 - (utf8Bytes (rnd ++ password)).length % 16)), ?_, ?_, ?_, ?_, ?_⟩
    · simp only [encryptPasswordWith, hs]
      rfl
    · exact b64_roundtrip _ hspec.2
    · rw [hspec.1, hplen]
    · rw [hspec.1, hplen]
      omega
    · rw [hspec.1, hpl]
  · have hspec := encrypt_branch_spec 6 12 (utf8Bytes (rustTrim salt)) (utf8Bytes iv) _
      (by norm_num) (by norm_num) (by rw [hs]) hkb hivl hivb hpl hpb
    refine ⟨cbcEnc (expandKey 6 12 (utf8Bytes (rustTrim salt))) (utf8Bytes iv)
      (utf8Bytes (rnd ++ password) ++
        List.replicate (16 - (utf8Bytes (rnd ++ password)).length % 16)
          (16 - (utf8Bytes (rnd ++ password)).length % 16)), ?_, ?_, ?_, ?_, ?_⟩
    · simp only [encryptPasswordWith, hs]
      rfl
    · exact b64_roundtrip _ hspec.2
    · rw [hspec.1, hplen]
    · rw [hspec.1, hplen]
      omega
    · rw [hspec.1, hpl]
  · have hspec := encrypt_branch_spec 8 14 (utf8Bytes (rustTrim salt)) (utf8Bytes iv) _
      (by norm_num) (by norm_num) (by rw [hs]) hkb hivl hivb hpl hpb
    refine ⟨cbcEnc (expandKey 8 14 (utf8Bytes (rustTrim salt))) (utf8Bytes iv)
      (utf8Bytes (rnd ++ password) ++
        List.replicate (16 - (utf8Bytes (rnd ++ password)).length % 16)
          (16 - (utf8Bytes (rnd ++ password)).length % 16)), ?_, ?_, ?_, ?_, ?_⟩
    · simp only [encryptPasswordWith, hs]
      rfl
    · exact b64_roundtrip _ hspec.2
    · rw [hspec.1, hplen]
    · rw [hspec.1, hplen]
      omega
    · rw [hspec.1, hpl]

/-- Claim C1 (witness): the crate's own unit-test shape — an 11-byte
password and a 16-byte salt give an 80-byte ciphertext. -/
theorem encryptPassword_ok_length_witness :
    ∃ ct, encryptPasswordWith "ABCDEFGHJKMNPQRS" (String.mk (List.replicate 64 'a'))
        "password123" "1234567890123456" = .ok (base64Enc ct) ∧
      base64Dec (base64Enc ct) = some ct ∧
      ct.length = 16 * ((64 + (utf8Bytes "password123").length + 1 + 15) / 16) ∧
      0 < ct.length ∧ ct.length % 16 = 0 :=
  encryptPassword_ok_length "password123" "1234567890123456" "ABCDEFGHJKMNPQRS"
    (String.mk (List.replicate 64 'a')) (Or.inl (by decide)) (by decide) (by decide)
    (by decide) (by decide)

/-- Claim C2 (witness). -/
theorem encryptPassword_invalid_key_length_witness :
    ((utf8Bytes (rustTrim "short")).length ≠ 16 ∧
      (utf8Bytes (rustTrim "short")).length ≠ 24 ∧
      (utf8Bytes (rustTrim "short")).length ≠ 32) ∧
    encryptPasswordWith "iv" "rnd" "password123" "short" =
      .error (.CryptoError "Invalid key length: 5") :=
  ⟨⟨by decide, by decide, by decide⟩,
    encryptPassword_invalid_key_length "iv" "rnd" "password123" "short"
      (by decide) (by decide) (by decide)⟩

/-! ## Cookie round trip: claim C7 -/

lemma strEta (s : String) : (⟨s.data⟩ : String) = s := by
  cases s
  rfl

lemma dropWhile_head_false {p : Char → Bool} {l : List Char}
    (h : ∀ c, l.head? = some c → p c = false) : l.dropWhile p = l := by
  rcases l with _ | ⟨a, l⟩
  · rfl
  · rw [List.dropWhile_cons, h a rfl]
    simp

lemma trimWs_eq_self {l : List Char}
    (h1 : ∀ c, l.head? = some c → isCookieWS c = false)
    (h2 : ∀ c, l.getLast? = some c → isCookieWS c = false) : trimWs l = l := by
  unfold trimWs
  rw [dropWhile_head_false h1, dropWhile_head_false (by
    intro c hc
    rw [List.head?_reverse] at hc
    exact h2 c hc), List.reverse_reverse]

lemma trimWs_cons_space (l : List Char) : trimWs (' ' :: l) = trimWs l := by
  unfold trimWs
  rw [List.dropWhile_cons]
  norm_num [isCookieWS]

lemma splitOnChar_ne_nil (sep : Char) : ∀ l : List Char, splitOnChar sep l ≠ [] := by
  intro l
  induction l with
  | nil => simp [splitOnChar]
  | cons c rest ih =>
    rw [splitOnChar]
    rcases h : splitOnChar sep rest with _ | ⟨g, gs⟩
    · exact absurd h ih
    · show (if c = sep then [] :: g :: gs else (c :: g) :: gs) ≠ []
      split <;> simp

lemma splitOnChar_no_sep (sep : Char) : ∀ l : List Char,
    (∀ c ∈ l, c ≠ sep) → splitOnChar sep l = [l] := by
  intro l
  induction l with
  | nil => intro _; rfl
  | cons c rest ih =>
    intro h
    rw [splitOnChar, ih (fun x hx => h x (List.mem_cons_of_mem _ hx))]
    show (if c = sep then [] :: rest :: [] else (c :: rest) :: []) = [c :: rest]
    rw [if_neg (h c (List.mem_cons_self _ _))]

lemma splitOnChar_append (sep : Char) : ∀ l1 l2 : List Char,
    (∀ c ∈ l1, c ≠ sep) →
    splitOnChar sep (l1 ++ sep :: l2) = l1 :: splitOnChar sep l2 := by
  intro l1
  induction l1 with
  | nil =>
    intro l2 _
    show splitOnChar sep (sep :: l2) = [] :: splitOnChar sep l2
    rw [splitOnChar]
    rcases hs : splitOnChar sep l2 with _ | ⟨g, gs⟩
    · exact absurd hs (splitOnChar_ne_nil sep l2)
    · show (if sep = sep then [] :: g :: gs else (sep :: g) :: gs) = [] :: g :: gs
      rw [if_pos rfl]
  | cons c rest ih =>
    intro l2 h
    show splitOnChar sep (c :: (rest ++ sep :: l2)) = (c :: rest) :: splitOnChar sep l2
    rw [splitOnChar, ih l2 (fun x hx => h x (List.mem_cons_of_mem _ hx))]
    show (if c = sep then [] :: rest :: splitOnChar sep l2
      else (c :: rest) :: splitOnChar sep l2) = (c :: rest) :: splitOnChar sep l2
    rw [if_neg (h c (List.mem_cons_self _ _))]

/-- Segments joined by a separator. -/
def joinSep (sep : Char) : List (List Char) → List Char
  | [] => []
  | [s] => s
  | s :: rest => s ++ sep :: joinSep sep rest

lemma splitOnChar_joinSep (sep : Char) : ∀ segs : List (List Char), segs ≠ [] →
    (∀ s ∈ segs, ∀ c ∈ s, c ≠ sep) →
    splitOnChar sep (joinSep sep segs) = segs := by
  intro segs
  induction segs with
  | nil => intro h _; exact absurd rfl h
  | cons s rest ih =>
    intro _ h
    rcases rest with _ | ⟨s2, rest2⟩
    · exact splitOnChar_no_sep sep s (h s (by simp))
    · show splitOnChar sep (s ++ sep :: joinSep sep (s2 :: rest2)) = s :: s2 :: rest2
      rw [splitOnChar_append sep s _ (h s (by simp)),
        ih (by simp) (fun x hx => h x (List.mem_cons_of_mem _ hx))]

lemma splitFirstEq_append : ∀ l1 l2 : List Char, '=' ∉ l1 →
    splitFirstEq (l1 ++ '=' :: l2) = some (l1, l2) := by
  intro l1
  induction l1 with
  | nil => intro l2 _; rfl
  | cons c rest ih =>
    intro l2 h
    show splitFirstEq (c :: (rest ++ '=' :: l2)) = some (c :: rest, l2)
    rw [splitFirstEq, if_neg (by
      intro hc
      exact h (hc ▸ List.mem_cons_self _ _)),
      ih l2 (fun hx => h (List.mem_cons_of_mem _ hx))]
    rfl

lemma validHost_chars {d : String} (h : validHost d = true) :
    ∀ c ∈ d.data, c ≠ ';' ∧ c ≠ '=' ∧ isCookieWS c = false := by
  intro c hc
  unfold validHost at h
  rw [Bool.and_eq_true, List.all_eq_true] at h
  have hcr := h.2 c hc
  rw [decide_eq_true_eq] at hcr
  refine ⟨?_, ?_, ?_⟩
  · rintro rfl
    rcases hcr with h2 | h2 | h2 | h2 <;> simp_all
  · rintro rfl
    rcases hcr with h2 | h2 | h2 | h2 <;> simp_all
  · simp only [isCookieWS]
    rw [Bool.or_eq_false_iff]
    constructor <;>
      (rw [beq_eq_false_iff_ne]
       rintro rfl
       rcases hcr with h2 | h2 | h2 | h2 <;> simp_all)

lemma applyAttr_kv (c : RawCookie) (seg0 k v : List Char)
    (h : splitFirstEq (trimWs seg0) = some (k, v)) : applyAttr c seg0 = applyKV c k v := by
  unfold applyAttr
  rw [h]

lemma applyAttr_flag (c : RawCookie) (seg0 : List Char)
    (h : splitFirstEq (trimWs seg0) = none) : applyAttr c seg0 = applyFlag c (trimWs seg0) := by
  unfold applyAttr
  rw [h]

/-- No blank at the head of a segment piece. -/
def headNotWS (l : List Char) : Bool :=
  match l.head? with
  | some c => !isCookieWS c
  | none => true

/-- No blank at the end of a segment piece. -/
def lastNotWS (l : List Char) : Bool :=
  match l.getLast? with
  | some c => !isCookieWS c
  | none => true

lemma headNotWS_spec {l : List Char} (h : headNotWS l = true) :
    ∀ c, l.head? = some c → isCookieWS c = false := by
  intro c hc
  unfold headNotWS at h
  rw [hc] at h
  simpa using h

lemma lastNotWS_spec {l : List Char} (h : lastNotWS l = true) :
    ∀ c, l.getLast? = some c → isCookieWS c = false := by
  intro c hc
  unfold lastNotWS at h
  rw [hc] at h
  simpa using h

/-- A cookie name the `cookie` crate reparses unchanged: nonempty, no
separator or equals sign, no blank at either edge. -/
def wfName (s : String) : Prop :=
  s.data ≠ [] ∧ (∀ c ∈ s.data, c ≠ ';' ∧ c ≠ '=') ∧
  headNotWS s.data = true ∧ lastNotWS s.data = true

/-- A value or path the `cookie` crate reparses unchanged: no separator,
no blank at either edge. -/
def wfValue (s : String) : Prop :=
  (∀ c ∈ s.data, c ≠ ';') ∧ headNotWS s.data = true ∧ lastNotWS s.data = true

lemma wfValue_trim {s : String} (h : wfValue s) : trimWs s.data = s.data :=
  trimWs_eq_self (headNotWS_spec h.2.1) (lastNotWS_spec h.2.2)

/-- A domain that `Url::parse` accepts as a host and that has no leading
dot (so the `cookie` crate's dot-stripping leaves it unchanged). -/
def wfDomain (s : String) : Prop := validHost s = true ∧ s.data.head? ≠ some '.'

lemma validHost_ne_nil {d : String} (h : validHost d = true) : d.data ≠ [] := by
  unfold validHost at h
  rw [Bool.and_eq_true] at h
  simpa using h.1

lemma wfDomain_trim {d : String} (hd : wfDomain d) : trimWs d.data = d.data :=
  trimWs_eq_self
    (fun c hc => (validHost_chars hd.1 c (List.mem_of_mem_head? hc)).2.2)
    (fun c hc => (validHost_chars hd.1 c (List.mem_of_mem_getLast? hc)).2.2)

lemma applyAttr_domain (c : RawCookie) (d : String) (hd : wfDomain d) :
    applyAttr c (' ' :: ("Domain".data ++ '=' :: d.data)) = { c with domain := some d } := by
  have hne := validHost_ne_nil hd.1
  have h1 : trimWs (' ' :: ("Domain".data ++ '=' :: d.data)) =
      "Domain".data ++ '=' :: d.data := by
    rw [trimWs_cons_space]
    apply trimWs_eq_self
    · intro c2 hc2
      rw [show ("Domain".data ++ '=' :: d.data).head? = some 'D' from rfl] at hc2
      injection hc2 with hc2
      subst hc2
      rfl
    · intro c2 hc2
      rw [List.getLast?_append_of_ne_nil "Domain".data (by simp),
        show ('=' :: d.data : List Char) = ['='] ++ d.data from rfl,
        List.getLast?_append_of_ne_nil ['='] hne] at hc2
      exact (validHost_chars hd.1 c2 (List.mem_of_mem_getLast? hc2)).2.2
  have h2 : splitFirstEq (trimWs (' ' :: ("Domain".data ++ '=' :: d.data))) =
      some ("Domain".data, d.data) := by
    rw [h1]
    exact splitFirstEq_append _ _ (by decide)
  rw [applyAttr_kv c _ _ _ h2]
  unfold applyKV
  have hie : d.data.isEmpty = false := by
    rcases hdd : d.data with _ | ⟨a, l⟩
    · exact absurd hdd hne
    · rfl
  rw [wfDomain_trim hd,
    if_pos (show lowerList (trimWs "Domain".data) = "domain".data from by decide)]
  simp only [hie, Bool.false_eq_true, if_false, if_neg hd.2, strEta]

lemma applyAttr_path (c : RawCookie) (p : String) (hp : wfValue p) :
    applyAttr c (' ' :: ("Path".data ++ '=' :: p.data)) = { c with path := some p } := by
  have htp : trimWs p.data = p.data := wfValue_trim hp
  have h1 : trimWs (' ' :: ("Path".data ++ '=' :: p.data)) =
      "Path".data ++ '=' :: p.data := by
    rw [trimWs_cons_space]
    apply trimWs_eq_self
    · intro c2 hc2
      rw [show ("Path".data ++ '=' :: p.data).head? = some 'P' from rfl] at hc2
      injection hc2 with hc2
      subst hc2
      rfl
    · intro c2 hc2
      rw [List.getLast?_append_of_ne_nil "Path".data (by simp)] at hc2
      rcases hpd : p.data with _ | ⟨a, rest⟩
      · rw [hpd] at hc2
        simp only [List.getLast?_singleton, Option.some.injEq] at hc2
        subst hc2
        rfl
      · rw [hpd, show ('=' :: a :: rest : List Char) = ['='] ++ (a :: rest) from rfl,
          List.getLast?_append_of_ne_nil ['='] (by simp)] at hc2
        rw [← hpd] at hc2
        exact lastNotWS_spec hp.2.2 c2 hc2
  have h2 : splitFirstEq (trimWs (' ' :: ("Path".data ++ '=' :: p.data))) =
      some ("Path".data, p.data) := by
    rw [h1]
    exact splitFirstEq_append _ _ (by decide)
  rw [applyAttr_kv c _ _ _ h2]
  unfold applyKV
  rw [if_neg (by decide), if_pos (by decide), htp, strEta]

lemma applyAttr_secure (c : RawCookie) :
    applyAttr c (' ' :: "Secure".data) = { c with secure := true } := by
  rw [applyAttr_flag c _ (by decide), show trimWs (' ' :: "Secure".data) = "Secure".data
    from by decide]
  unfold applyFlag
  rw [if_pos (by decide)]

lemma applyAttr_httpOnly (c : RawCookie) :
    applyAttr c (' ' :: "HttpOnly".data) = { c with httpOnly := true } := by
  rw [applyAttr_flag c _ (by decide), show trimWs (' ' :: "HttpOnly".data) = "HttpOnly".data
    from by decide]
  unfold applyFlag
  rw [if_neg (by decide), if_pos (by decide)]

/-- The fields a jar cookie must satisfy for the rebuilt cookie-set
string to reparse exactly (cookies received over HTTP do, since the
grammar of `Set-Cookie` excludes separators and surrounding blanks). -/
def wfStoreCookie (c : StoreCookie) : Prop :=
  wfName c.name ∧ wfValue c.value ∧
  (match c.domain with
   | some d => d = "" ∨ wfDomain d
   | none => True) ∧
  (match c.path with
   | some p => wfValue p
   | none => True)

/-- What a jar cookie looks like after one save/load cycle: name, value,
path, Secure and HttpOnly survive; a missing or empty domain has been
replaced by the identity server's own domain; any expiry is gone. -/
def reloadedCookie (c : StoreCookie) : StoreCookie :=
  { name := c.name, value := c.value,
    domain := some (match c.domain with
      | some d => if d = "" then defaultDomain else d
      | none => defaultDomain),
    path := some (c.path.getD "/"),
    expires := none,
    secure := if c.secure.getD false then some true else none,
    httpOnly := if c.httpOnly.getD false then some true else none }

/-- Reparse of a name=value head followed by attribute segments. -/
lemma parseRawCookie_segs (namev valuev : String) (attrs : List (List Char))
    (hn : wfName namev) (hv : wfValue valuev)
    (hattrs : ∀ s ∈ attrs, ∀ c ∈ s, c ≠ ';') :
    parseRawCookie ⟨joinSep ';' ((namev.data ++ '=' :: valuev.data) :: attrs)⟩ =
      some (attrs.foldl applyAttr
        { name := namev, value := valuev, domain := none, path := none,
          secure := false, httpOnly := false, maxAge := none }) := by
  have hnosemi_nv : ∀ c ∈ namev.data ++ '=' :: valuev.data, c ≠ ';' := by
    intro c hc
    rcases List.mem_append.mp hc with hc | hc
    · exact (hn.2.1 c hc).1
    · rcases List.mem_cons.mp hc with rfl | hc
      · decide
      · exact hv.1 c hc
  have hsplit : splitOnChar ';'
      ((⟨joinSep ';' ((namev.data ++ '=' :: valuev.data) :: attrs)⟩ : String).data) =
      (namev.data ++ '=' :: valuev.data) :: attrs := by
    rw [show ((⟨joinSep ';' ((namev.data ++ '=' :: valuev.data) :: attrs)⟩ :
        String)).data = joinSep ';' ((namev.data ++ '=' :: valuev.data) :: attrs)
      from rfl]
    apply splitOnChar_joinSep ';' _ (by simp)
    intro s2 hs2
    rcases List.mem_cons.mp hs2 with rfl | hs2
    · exact hnosemi_nv
    · exact hattrs s2 hs2
  have hsfe : splitFirstEq (namev.data ++ '=' :: valuev.data) =
      some (namev.data, valuev.data) :=
    splitFirstEq_append _ _ (fun hc => (hn.2.1 '=' hc).2 rfl)
  have htn : trimWs namev.data = namev.data :=
    trimWs_eq_self (headNotWS_spec hn.2.2.1) (lastNotWS_spec hn.2.2.2)
  have htv : trimWs valuev.data = valuev.data := wfValue_trim hv
  have hnemp : namev.data.isEmpty = false := by
    rcases hnd : namev.data with _ | ⟨a, l⟩
    · exact absurd hnd hn.1
    · rfl
  simp only [parseRawCookie, hsplit, hsfe, htn, htv, hnemp, Bool.false_eq_true,
    if_false, strEta]

/-- The rebuilt cookie string of a well-formed saved record reparses to
exactly the record's fields. -/
lemma parseRawCookie_build (sc : SerializableCookie)
    (hn : wfName sc.name) (hv : wfValue sc.value) (hd : wfDomain sc.domain)
    (hp : wfValue sc.path) (he : sc.expires = none) :
    parseRawCookie (buildCookieStr sc) = some
      { name := sc.name, value := sc.value, domain := some sc.domain,
        path := some sc.path, secure := sc.secure, httpOnly := sc.httpOnly,
        maxAge := none } := by
  have hstr : ∀ J : List Char, (buildCookieStr sc).data = J → buildCookieStr sc = ⟨J⟩ := by
    intro J hJ
    rw [← hJ, strEta]
  have hnosemi_dom : ∀ c ∈ ' ' :: ("Domain".data ++ '=' :: sc.domain.data), c ≠ ';' := by
    intro c hc
    rcases List.mem_cons.mp hc with rfl | hc
    · decide
    · rcases List.mem_append.mp hc with hc | hc
      · exact (show ∀ c2 ∈ ("Domain".data : List Char), c2 ≠ ';' by decide) c hc
      · rcases List.mem_cons.mp hc with rfl | hc
        · decide
        · exact (validHost_chars hd.1 c hc).1
  have hnosemi_path : ∀ c ∈ ' ' :: ("Path".data ++ '=' :: sc.path.data), c ≠ ';' := by
    intro c hc
    rcases List.mem_cons.mp hc with rfl | hc
    · decide
    · rcases List.mem_append.mp hc with hc | hc
      · exact (show ∀ c2 ∈ ("Path".data : List Char), c2 ≠ ';' by decide) c hc
      · rcases List.mem_cons.mp hc with rfl | hc
        · decide
        · exact hp.1 c hc
  have hnosemi_sec : ∀ c ∈ (' ' :: "Secure".data : List Char), c ≠ ';' := by decide
  have hnosemi_http : ∀ c ∈ (' ' :: "HttpOnly".data : List Char), c ≠ ';' := by decide
  cases hsec : sc.secure <;> cases hhttp : sc.httpOnly
  · have hdata : buildCookieStr sc = ⟨joinSep ';'
        [sc.name.data ++ '=' :: sc.value.data,
         ' ' :: ("Domain".data ++ '=' :: sc.domain.data),
         ' ' :: ("Path".data ++ '=' :: sc.path.data)]⟩ := by
      apply hstr
      unfold buildCookieStr
      rw [hsec, hhttp, he]
      simp only [String.data_append, Bool.false_eq_true, if_false,
        show ("=" : String).data = ['='] from rfl,
        show ("; Domain=" : String).data = ';' :: ' ' :: ("Domain".data ++ ['=']) from rfl,
        show ("; Path=" : String).data = ';' :: ' ' :: ("Path".data ++ ['=']) from rfl,
        show ("" : String).data = [] from rfl,
        joinSep, List.append_nil, List.append_assoc, List.cons_append,
        List.singleton_append, List.nil_append]
    rw [hdata, parseRawCookie_segs sc.name sc.value _ hn hv (by
      intro s2 hs2
      simp only [List.mem_cons, List.not_mem_nil, or_false] at hs2
      rcases hs2 with rfl | rfl
      · exact hnosemi_dom
      · exact hnosemi_path)]
    rw [List.foldl_cons, applyAttr_domain _ _ hd, List.foldl_cons,
      applyAttr_path _ _ hp, List.foldl_nil]
  · have hdata : buildCookieStr sc = ⟨joinSep ';'
        [sc.name.data ++ '=' :: sc.value.data,
         ' ' :: ("Domain".data ++ '=' :: sc.domain.data),
         ' ' :: ("Path".data ++ '=' :: sc.path.data),
         ' ' :: "HttpOnly".data]⟩ := by
      apply hstr
      unfold buildCookieStr
      rw [hsec, hhttp, he]
      simp only [String.data_append, Bool.false_eq_true, if_false, if_true,
        show ("=" : String).data = ['='] from rfl,
        show ("; Domain=" : String).data = ';' :: ' ' :: ("Domain".data ++ ['=']) from rfl,
        show ("; Path=" : String).data = ';' :: ' ' :: ("Path".data ++ ['=']) from rfl,
        show ("; HttpOnly" : String).data = ';' :: ' ' :: "HttpOnly".data from rfl,
        show ("" : String).data = [] from rfl,
        joinSep, List.append_nil, List.append_assoc, List.cons_append,
        List.singleton_append, List.nil_append]
    rw [hdata, parseRawCookie_segs sc.name sc.value _ hn hv (by
      intro s2 hs2
      simp only [List.mem_cons, List.not_mem_nil, or_false] at hs2
      rcases hs2 with rfl | rfl | rfl
      · exact hnosemi_dom
      · exact hnosemi_path
      · exact hnosemi_http)]
    rw [List.foldl_cons, applyAttr_domain _ _ hd, List.foldl_cons,
      applyAttr_path _ _ hp, List.foldl_cons, applyAttr_httpOnly, List.foldl_nil]
  · have hdata : buildCookieStr sc = ⟨joinSep ';'
        [sc.name.data ++ '=' :: sc.value.data,
         ' ' :: ("Domain".data ++ '=' :: sc.domain.data),
         ' ' :: ("Path".data ++ '=' :: sc.path.data),
         ' ' :: "Secure".data]⟩ := by
      apply hstr
      unfold buildCookieStr
      rw [hsec, hhttp, he]
      simp only [String.data_append, Bool.false_eq_true, if_false, if_true,
        show ("=" : String).data = ['='] from rfl,
        show ("; Domain=" : String).data = ';' :: ' ' :: ("Domain".data ++ ['=']) from rfl,
        show ("; Path=" : String).data = ';' :: ' ' :: ("Path".data ++ ['=']) from rfl,
        show ("; Secure" : String).data = ';' :: ' ' :: "Secure".data from rfl,
        show ("" : String).data = [] from rfl,
        joinSep, List.append_nil, List.append_assoc, List.cons_append,
        List.singleton_append, List.nil_append]
    rw [hdata, parseRawCookie_segs sc.name sc.value _ hn hv (by
      intro s2 hs2
      simp only [List.mem_cons, List.not_mem_nil, or_false] at hs2
      rcases hs2 with rfl | rfl | rfl
      · exact hnosemi_dom
      · exact hnosemi_path
      · exact hnosemi_sec)]
    rw [List.foldl_cons, applyAttr_domain _ _ hd, List.foldl_cons,
      applyAttr_path _ _ hp, List.foldl_cons, applyAttr_secure, List.foldl_nil]
  · have hdata : buildCookieStr sc = ⟨joinSep ';'
        [sc.name.data ++ '=' :: sc.value.data,
         ' ' :: ("Domain".data ++ '=' :: sc.domain.data),
         ' ' :: ("Path".data ++ '=' :: sc.path.data),
         ' ' :: "Secure".data,
         ' ' :: "HttpOnly".data]⟩ := by
      apply hstr
      unfold buildCookieStr
      rw [hsec, hhttp, he]
      simp only [String.data_append, if_true,
        show ("=" : String).data = ['='] from rfl,
        show ("; Domain=" : String).data = ';' :: ' ' :: ("Domain".data ++ ['=']) from rfl,
        show ("; Path=" : String).data = ';' :: ' ' :: ("Path".data ++ ['=']) from rfl,
        show ("; Secure" : String).data = ';' :: ' ' :: "Secure".data from rfl,
        show ("; HttpOnly" : String).data = ';' :: ' ' :: "HttpOnly".data from rfl,
        show ("" : String).data = [] from rfl,
        joinSep, List.append_nil, List.append_assoc, List.cons_append,
        List.singleton_append, List.nil_append]
    rw [hdata, parseRawCookie_segs sc.name sc.value _ hn hv (by
      intro s2 hs2
      simp only [List.mem_cons, List.not_mem_nil, or_false] at hs2
      rcases hs2 with rfl | rfl | rfl | rfl
      · exact hnosemi_dom
      · exact hnosemi_path
      · exact hnosemi_sec
      · exact hnosemi_http)]
    rw [List.foldl_cons, applyAttr_domain _ _ hd, List.foldl_cons,
      applyAttr_path _ _ hp, List.foldl_cons, applyAttr_secure, List.foldl_cons,
      applyAttr_httpOnly, List.foldl_nil]

instance wfNameDec (s : String) : Decidable (wfName s) :=
  inferInstanceAs (Decidable (s.data ≠ [] ∧ (∀ c ∈ s.data, c ≠ ';' ∧ c ≠ '=') ∧
    headNotWS s.data = true ∧ lastNotWS s.data = true))

instance wfValueDec (s : String) : Decidable (wfValue s) :=
  inferInstanceAs (Decidable ((∀ c ∈ s.data, c ≠ ';') ∧ headNotWS s.data = true ∧
    lastNotWS s.data = true))

instance wfDomainDec (s : String) : Decidable (wfDomain s) :=
  inferInstanceAs (Decidable (validHost s = true ∧ s.data.head? ≠ some '.'))

/-- One well-formed serialized record reloads to the expected jar cookie. -/
lemma load_cons_generic (namev valuev D P : String) (sec http : Bool)
    (rest : List SerializableCookie)
    (hn : wfName namev) (hv : wfValue valuev) (hD : wfDomain D) (hP : wfValue P) :
    loadCookieStore
      ({ name := namev, value := valuev, domain := D, path := P, expires := none,
         secure := sec, httpOnly := http } :: rest) =
      { name := namev, value := valuev, domain := some D, path := some P,
        expires := none,
        secure := if sec then some true else none,
        httpOnly := if http then some true else none } :: loadCookieStore rest := by
  have hDne : D ≠ "" := by
    intro h0
    exact validHost_ne_nil hD.1 (congrArg String.data h0)
  have hmatch : domainMatch D D = true := by
    simp [domainMatch]
  unfold loadCookieStore
  rw [List.filterMap_cons]
  have hbody :
      (if ({ name := namev, value := valuev, domain := D, path := P, expires := none,
             secure := sec, httpOnly := http } : SerializableCookie).domain = "" then
        (none : Option StoreCookie)
      else
        match parseRawCookie (buildCookieStr
            { name := namev, value := valuev, domain := D, path := P, expires := none,
              secure := sec, httpOnly := http }) with
        | some rc =>
          if validHost D then
            if (match rc.domain with
                | some d => domainMatch d D
                | none => true) then
              some { name := rc.name, value := rc.value, domain := rc.domain,
                     path := rc.path, expires := rc.maxAge,
                     secure := if rc.secure then some true else none,
                     httpOnly := if rc.httpOnly then some true else none }
            else none
          else none
        | none => none) =
      some { name := namev, value := valuev, domain := some D, path := some P,
             expires := none,
             secure := if sec then some true else none,
             httpOnly := if http then some true else none } := by
    rw [if_neg hDne,
      parseRawCookie_build
        { name := namev, value := valuev, domain := D, path := P, expires := none,
          secure := sec, httpOnly := http } hn hv hD hP rfl]
    show (if validHost D = true then
        if domainMatch D D = true then
          some ({ name := namev, value := valuev, domain := some D, path := some P,
                  expires := none,
                  secure := if sec then some true else none,
                  httpOnly := if http then some true else none } : StoreCookie)
        else none
      else none) = _
    rw [if_pos hD.1, if_pos hmatch]
  rw [hbody]

/-- Saving then loading turns each well-formed jar cookie into its
reloaded image, one cons step at a time. -/
lemma load_save_cons (c : StoreCookie) (rest : List StoreCookie)
    (h : wfStoreCookie c) :
    loadCookieStore (saveCookieStore (c :: rest)) =
      reloadedCookie c :: loadCookieStore (saveCookieStore rest) := by
  obtain ⟨hn, hv, hdom, hpath⟩ := h
  have hD : wfDomain (match c.domain with
      | some d => if d = "" then defaultDomain else d
      | none => defaultDomain) := by
    rcases hcd : c.domain with _ | d
    · simp only [hcd]
      decide
    · simp only [hcd] at hdom ⊢
      by_cases hd0 : d = ""
      · rw [if_pos hd0]
        decide
      · rw [if_neg hd0]
        rcases hdom with h1 | h1
        · exact absurd h1 hd0
        · exact h1
  have hP : wfValue (c.path.getD "/") := by
    rcases hcp : c.path with _ | p
    · simp only [hcp, Option.getD_none]
      decide
    · simp only [hcp] at hpath ⊢
      rw [Option.getD_some]
      exact hpath
  have hsave : saveCookieStore (c :: rest) =
      { name := c.name, value := c.value,
        domain := (match c.domain with
          | some d => if d = "" then defaultDomain else d
          | none => defaultDomain),
        path := c.path.getD "/", expires := none,
        secure := c.secure.getD false, httpOnly := c.httpOnly.getD false } ::
      saveCookieStore rest := rfl
  rw [hsave, load_cons_generic _ _ _ _ _ _ _ hn hv hD hP]
  rfl

/-- C7. Cookie persistence round-trips, but not as claimed: saving never
drops an empty-domain record (it substitutes the identity server's own
domain), and a reloaded cookie is the explicit `reloadedCookie` image of
the original, with `expires` always absent. -/
theorem cookie_save_load_roundtrip (jar : List StoreCookie)
    (h : ∀ c ∈ jar, wfStoreCookie c) :
    loadCookieStore (saveCookieStore jar) = jar.map reloadedCookie := by
  induction jar with
  | nil => rfl
  | cons c rest ih =>
    rw [load_save_cons c rest (h c (List.mem_cons_self c rest)), List.map_cons,
      ih (fun x hx => h x (List.mem_cons_of_mem c hx))]

theorem cookie_save_load_roundtrip_witness :
    (∀ c ∈ ([{ name := "JSESSIONID", value := "abc123", domain := some "idas.uestc.edu.cn",
               path := some "/authserver", expires := some 99, secure := some true,
               httpOnly := some false },
             { name := "route", value := "v1", domain := some "", path := none,
               expires := none, secure := none, httpOnly := some true }] :
        List StoreCookie), wfStoreCookie c) ∧
    loadCookieStore (saveCookieStore
      [{ name := "JSESSIONID", value := "abc123", domain := some "idas.uestc.edu.cn",
         path := some "/authserver", expires := some 99, secure := some true,
         httpOnly := some false },
       { name := "route", value := "v1", domain := some "", path := none,
         expires := none, secure := none, httpOnly := some true }]) =
      [{ name := "JSESSIONID", value := "abc123", domain := some "idas.uestc.edu.cn",
         path := some "/authserver", expires := some 99, secure := some true,
         httpOnly := some false },
       { name := "route", value := "v1", domain := some "", path := none,
         expires := none, secure := none, httpOnly := some true }].map reloadedCookie :=
  have hwf : ∀ c ∈ ([{ name := "JSESSIONID", value := "abc123",
                       domain := some "idas.uestc.edu.cn", path := some "/authserver",
                       expires := some 99, secure := some true, httpOnly := some false },
                     { name := "route", value := "v1", domain := some "", path := none,
                       expires := none, secure := none, httpOnly := some true }] :
      List StoreCookie), wfStoreCookie c := by
    intro c hc
    simp only [List.mem_cons, List.not_mem_nil, or_false] at hc
    rcases hc with rfl | rfl
    · exact ⟨by decide, by decide, Or.inr (by decide), by decide⟩
    · exact ⟨by decide, by decide, Or.inl rfl, trivial⟩
  ⟨hwf, cookie_save_load_roundtrip _ hwf⟩

/-- C7 counterexample: a jar cookie whose domain is the empty string is
NOT dropped by save; it is written with the fallback domain and survives
the reload with domain `idas.uestc.edu.cn`. -/
theorem cookie_empty_domain_not_dropped_on_save :
    ({ name := "sid", value := "abc", domain := some "", path := none,
       expires := some 5, secure := none, httpOnly := none } : StoreCookie).domain
      = some "" ∧
    loadCookieStore (saveCookieStore
      [{ name := "sid", value := "abc", domain := some "", path := none,
         expires := some 5, secure := none, httpOnly := none }]) =
      [{ name := "sid", value := "abc", domain := some defaultDomain, path := some "/",
         expires := none, secure := none, httpOnly := none }] :=
  ⟨rfl, by decide⟩

/-! ## Inverse cipher components: claim C9

`encrypt_password` draws a fresh IV and prefix per call; whether distinct
draws force distinct outputs comes down to the injectivity of the block
cipher, proved here through explicit left inverses of each round step. -/

/-- Inverse of the S-box affine transform. -/
def invAffine (x : Nat) : Nat := rotl8 x 1 ^^^ rotl8 x 3 ^^^ rotl8 x 6 ^^^ 5

/-- The inverse S-box: inverse affine transform, then the GF(2^8)
inverse. -/
def sinv (b : Nat) : Nat := gpow254 (invAffine b)

/-- Inverse of `shiftRows` on the flat column-major state. -/
def invShiftRows : List Nat → List Nat
  | [t0, t1, t2, t3, t4, t5, t6, t7, t8, t9, t10, t11, t12, t13, t14, t15] =>
    [t0, t13, t10, t7, t4, t1, t14, t11, t8, t5, t2, t15, t12, t9, t6, t3]
  | s => s

/-- Multiplication by 09 in GF(2^8). -/
def g9 (x : Nat) : Nat := xtime (xtime (xtime x)) ^^^ x

/-- Multiplication by 0b in GF(2^8). -/
def g11 (x : Nat) : Nat := xtime (xtime (xtime x)) ^^^ xtime x ^^^ x

/-- Multiplication by 0d in GF(2^8). -/
def g13 (x : Nat) : Nat := xtime (xtime (xtime x)) ^^^ xtime (xtime x) ^^^ x

/-- Multiplication by 0e in GF(2^8). -/
def g14 (x : Nat) : Nat := xtime (xtime (xtime x)) ^^^ xtime (xtime x) ^^^ xtime x

/-- Inverse MixColumns on one column: the matrix (0e 0b 0d 09). -/
def invMixCol : List Nat → List Nat
  | [a, b, c, d] =>
    [g14 a ^^^ g11 b ^^^ g13 c ^^^ g9 d,
     g9 a ^^^ g14 b ^^^ g11 c ^^^ g13 d,
     g13 a ^^^ g9 b ^^^ g14 c ^^^ g11 d,
     g11 a ^^^ g13 b ^^^ g9 c ^^^ g14 d]
  | s => s

def invMixColumns : List Nat → List Nat
  | [s0, s1, s2, s3, s4, s5, s6, s7, s8, s9, s10, s11, s12, s13, s14, s15] =>
    invMixCol [s0, s1, s2, s3] ++ invMixCol [s4, s5, s6, s7] ++
      invMixCol [s8, s9, s10, s11] ++ invMixCol [s12, s13, s14, s15]
  | s => s

set_option maxRecDepth 100000

/-- `sinv` is a left inverse of the S-box on bytes. -/
lemma sinv_sbox : ∀ b < 256, sinv (sbox b) = b := by decide

lemma xorlc (a b c : Nat) : a ^^^ (b ^^^ c) = b ^^^ (a ^^^ c) := by
  rw [← Nat.xor_assoc, Nat.xor_comm a b, Nat.xor_assoc]

lemma xor_swap2 (a b c d : Nat) : (a ^^^ b) ^^^ (c ^^^ d) = (a ^^^ c) ^^^ (b ^^^ d) := by
  simp only [Nat.xor_assoc]
  rw [xorlc b c d]

lemma two_mul_mod_xor (x y : Nat) : 2 * (x ^^^ y) % 256 = 2 * x % 256 ^^^ 2 * y % 256 := by
  apply Nat.eq_of_testBit_eq
  intro i
  rw [show (256 : Nat) = 2 ^ 8 from rfl]
  simp only [Nat.testBit_mod_two_pow, Nat.testBit_xor]
  rcases i with _ | j
  · simp [Nat.mul_mod_right]
  · have h2 : ∀ z : Nat, 2 * z / 2 = z := fun z => by omega
    simp only [Nat.testBit_add_one, h2, Nat.testBit_xor]
    cases x.testBit j <;> cases y.testBit j <;> cases hd : decide (j + 1 < 8) <;> rfl

lemma top_xor (x y : Nat) (hx : x < 256) (hy : y < 256) :
    (if 128 ≤ x ^^^ y then 27 else 0) =
      ((if 128 ≤ x then 27 else 0) ^^^ (if 128 ≤ y then 27 else 0) : Nat) := by
  have htop : ∀ z : Nat, z < 256 → (128 ≤ z ↔ z.testBit 7 = true) := by
    intro z hz
    rw [Nat.testBit_to_div_mod]
    constructor
    · intro h
      simp only [decide_eq_true_eq]
      omega
    · intro h
      simp only [decide_eq_true_eq] at h
      omega
  have hxy : x ^^^ y < 256 := xor_lt_256 hx hy
  have hbit : (x ^^^ y).testBit 7 = (x.testBit 7).xor (y.testBit 7) := Nat.testBit_xor x y 7
  by_cases h1 : 128 ≤ x <;> by_cases h2 : 128 ≤ y
  · have hx7 : x.testBit 7 = true := (htop x hx).mp h1
    have hy7 : y.testBit 7 = true := (htop y hy).mp h2
    have hno : ¬ 128 ≤ x ^^^ y := by
      intro hcon
      have hb := (htop _ hxy).mp hcon
      rw [hbit, hx7, hy7] at hb
      simp at hb
    rw [if_neg hno, if_pos h1, if_pos h2]
    decide
  · have hx7 : x.testBit 7 = true := (htop x hx).mp h1
    have hy7 : y.testBit 7 = false := by
      rcases hb : y.testBit 7
      · rfl
      · exact absurd ((htop y hy).mpr hb) h2
    have hyes : 128 ≤ x ^^^ y := (htop _ hxy).mpr (by rw [hbit, hx7, hy7]; rfl)
    rw [if_pos hyes, if_pos h1, if_neg h2]
    decide
  · have hx7 : x.testBit 7 = false := by
      rcases hb : x.testBit 7
      · rfl
      · exact absurd ((htop x hx).mpr hb) h1
    have hy7 : y.testBit 7 = true := (htop y hy).mp h2
    have hyes : 128 ≤ x ^^^ y := (htop _ hxy).mpr (by rw [hbit, hx7, hy7]; rfl)
    rw [if_pos hyes, if_neg h1, if_pos h2]
    decide
  · have hx7 : x.testBit 7 = false := by
      rcases hb : x.testBit 7
      · rfl
      · exact absurd ((htop x hx).mpr hb) h1
    have hy7 : y.testBit 7 = false := by
      rcases hb : y.testBit 7
      · rfl
      · exact absurd ((htop y hy).mpr hb) h2
    have hno : ¬ 128 ≤ x ^^^ y := by
      intro hcon
      have hb := (htop _ hxy).mp hcon
      rw [hbit, hx7, hy7] at hb
      simp at hb
    rw [if_neg hno, if_neg h1, if_neg h2]
    decide

/-- `xtime` is additive over XOR on bytes. -/
lemma xtime_xor : ∀ x < 256, ∀ y < 256, xtime (x ^^^ y) = xtime x ^^^ xtime y := by
  intro x hx y hy
  unfold xtime
  rw [two_mul_mod_xor, top_xor x y hx hy, xor_swap2]


/-! The sixteen entries of the product of the MixColumns matrix
(02 03 01 01 circulant) with its inverse (0e 0b 0d 09 circulant), as
per-byte identities: diagonal entries are the identity, the rest vanish. -/

lemma mixCoef00 : ∀ x < 256, g14 (g2 x) ^^^ g11 x ^^^ g13 x ^^^ g9 (g3 x) = x := by decide

lemma mixCoef01 : ∀ x < 256, g14 (g3 x) ^^^ g11 (g2 x) ^^^ g13 x ^^^ g9 x = 0 := by decide

lemma mixCoef02 : ∀ x < 256, g14 x ^^^ g11 (g3 x) ^^^ g13 (g2 x) ^^^ g9 x = 0 := by decide

lemma mixCoef03 : ∀ x < 256, g14 x ^^^ g11 x ^^^ g13 (g3 x) ^^^ g9 (g2 x) = 0 := by decide

lemma mixCoef10 : ∀ x < 256, g9 (g2 x) ^^^ g14 x ^^^ g11 x ^^^ g13 (g3 x) = 0 := by decide

lemma mixCoef11 : ∀ x < 256, g9 (g3 x) ^^^ g14 (g2 x) ^^^ g11 x ^^^ g13 x = x := by decide

lemma mixCoef12 : ∀ x < 256, g9 x ^^^ g14 (g3 x) ^^^ g11 (g2 x) ^^^ g13 x = 0 := by decide

lemma mixCoef13 : ∀ x < 256, g9 x ^^^ g14 x ^^^ g11 (g3 x) ^^^ g13 (g2 x) = 0 := by decide

lemma mixCoef20 : ∀ x < 256, g13 (g2 x) ^^^ g9 x ^^^ g14 x ^^^ g11 (g3 x) = 0 := by decide

lemma mixCoef21 : ∀ x < 256, g13 (g3 x) ^^^ g9 (g2 x) ^^^ g14 x ^^^ g11 x = 0 := by decide

lemma mixCoef22 : ∀ x < 256, g13 x ^^^ g9 (g3 x) ^^^ g14 (g2 x) ^^^ g11 x = x := by decide

lemma mixCoef23 : ∀ x < 256, g13 x ^^^ g9 x ^^^ g14 (g3 x) ^^^ g11 (g2 x) = 0 := by decide

lemma mixCoef30 : ∀ x < 256, g11 (g2 x) ^^^ g13 x ^^^ g9 x ^^^ g14 (g3 x) = 0 := by decide

lemma mixCoef31 : ∀ x < 256, g11 (g3 x) ^^^ g13 (g2 x) ^^^ g9 x ^^^ g14 x = 0 := by decide

lemma mixCoef32 : ∀ x < 256, g11 x ^^^ g13 (g3 x) ^^^ g9 (g2 x) ^^^ g14 x = 0 := by decide

lemma mixCoef33 : ∀ x < 256, g11 x ^^^ g13 x ^^^ g9 (g3 x) ^^^ g14 (g2 x) = x := by decide

/-! ## Additivity of the GF(2^8) multipliers, and the round inverses -/

lemma xt2_xor {x y : Nat} (hx : x < 256) (hy : y < 256) :
    xtime (xtime (x ^^^ y)) = xtime (xtime x) ^^^ xtime (xtime y) := by
  rw [xtime_xor x hx y hy, xtime_xor _ (xtime_lt x) _ (xtime_lt y)]

lemma xt3_xor {x y : Nat} (hx : x < 256) (hy : y < 256) :
    xtime (xtime (xtime (x ^^^ y))) =
      xtime (xtime (xtime x)) ^^^ xtime (xtime (xtime y)) := by
  rw [xt2_xor hx hy, xtime_xor _ (xtime_lt (xtime x)) _ (xtime_lt (xtime y))]

lemma g2_xor {x y : Nat} (hx : x < 256) (hy : y < 256) :
    g2 (x ^^^ y) = g2 x ^^^ g2 y := xtime_xor x hx y hy

lemma g3_xor {x y : Nat} (hx : x < 256) (hy : y < 256) :
    g3 (x ^^^ y) = g3 x ^^^ g3 y := by
  show xtime (x ^^^ y) ^^^ (x ^^^ y) = (xtime x ^^^ x) ^^^ (xtime y ^^^ y)
  rw [xtime_xor x hx y hy, xor_swap2]

lemma g9_xor {x y : Nat} (hx : x < 256) (hy : y < 256) :
    g9 (x ^^^ y) = g9 x ^^^ g9 y := by
  show xtime (xtime (xtime (x ^^^ y))) ^^^ (x ^^^ y) = _
  rw [xt3_xor hx hy, xor_swap2]
  rfl

lemma g11_xor {x y : Nat} (hx : x < 256) (hy : y < 256) :
    g11 (x ^^^ y) = g11 x ^^^ g11 y := by
  show xtime (xtime (xtime (x ^^^ y))) ^^^ xtime (x ^^^ y) ^^^ (x ^^^ y) = _
  rw [xt3_xor hx hy, xtime_xor x hx y hy,
    xor_swap2 (xtime (xtime (xtime x))) (xtime (xtime (xtime y))) (xtime x) (xtime y),
    xor_swap2 (xtime (xtime (xtime x)) ^^^ xtime x) (xtime (xtime (xtime y)) ^^^ xtime y) x y]
  rfl

lemma g13_xor {x y : Nat} (hx : x < 256) (hy : y < 256) :
    g13 (x ^^^ y) = g13 x ^^^ g13 y := by
  show xtime (xtime (xtime (x ^^^ y))) ^^^ xtime (xtime (x ^^^ y)) ^^^ (x ^^^ y) = _
  rw [xt3_xor hx hy, xt2_xor hx hy,
    xor_swap2 (xtime (xtime (xtime x))) (xtime (xtime (xtime y)))
      (xtime (xtime x)) (xtime (xtime y)),
    xor_swap2 (xtime (xtime (xtime x)) ^^^ xtime (xtime x))
      (xtime (xtime (xtime y)) ^^^ xtime (xtime y)) x y]
  rfl

lemma g14_xor {x y : Nat} (hx : x < 256) (hy : y < 256) :
    g14 (x ^^^ y) = g14 x ^^^ g14 y := by
  show xtime (xtime (xtime (x ^^^ y))) ^^^ xtime (xtime (x ^^^ y)) ^^^ xtime (x ^^^ y) = _
  rw [xt3_xor hx hy, xt2_xor hx hy, xtime_xor x hx y hy,
    xor_swap2 (xtime (xtime (xtime x))) (xtime (xtime (xtime y)))
      (xtime (xtime x)) (xtime (xtime y)),
    xor_swap2 (xtime (xtime (xtime x)) ^^^ xtime (xtime x))
      (xtime (xtime (xtime y)) ^^^ xtime (xtime y)) (xtime x) (xtime y)]
  rfl

lemma g9_xor4 {w x y z : Nat} (hw : w < 256) (hx : x < 256) (hy : y < 256)
    (hz : z < 256) : g9 (w ^^^ x ^^^ y ^^^ z) = g9 w ^^^ g9 x ^^^ g9 y ^^^ g9 z := by
  rw [g9_xor (xor_lt_256 (xor_lt_256 hw hx) hy) hz, g9_xor (xor_lt_256 hw hx) hy,
    g9_xor hw hx]

lemma g11_xor4 {w x y z : Nat} (hw : w < 256) (hx : x < 256) (hy : y < 256)
    (hz : z < 256) : g11 (w ^^^ x ^^^ y ^^^ z) = g11 w ^^^ g11 x ^^^ g11 y ^^^ g11 z := by
  rw [g11_xor (xor_lt_256 (xor_lt_256 hw hx) hy) hz, g11_xor (xor_lt_256 hw hx) hy,
    g11_xor hw hx]

lemma g13_xor4 {w x y z : Nat} (hw : w < 256) (hx : x < 256) (hy : y < 256)
    (hz : z < 256) : g13 (w ^^^ x ^^^ y ^^^ z) = g13 w ^^^ g13 x ^^^ g13 y ^^^ g13 z := by
  rw [g13_xor (xor_lt_256 (xor_lt_256 hw hx) hy) hz, g13_xor (xor_lt_256 hw hx) hy,
    g13_xor hw hx]

lemma g14_xor4 {w x y z : Nat} (hw : w < 256) (hx : x < 256) (hy : y < 256)
    (hz : z < 256) : g14 (w ^^^ x ^^^ y ^^^ z) = g14 w ^^^ g14 x ^^^ g14 y ^^^ g14 z := by
  rw [g14_xor (xor_lt_256 (xor_lt_256 hw hx) hy) hz, g14_xor (xor_lt_256 hw hx) hy,
    g14_xor hw hx]

lemma invMixCol_mixCol (a b c d : Nat) (ha : a < 256) (hb : b < 256) (hc : c < 256)
    (hd : d < 256) : invMixCol (mixCol [a, b, c, d]) = [a, b, c, d] := by
  have h2a : g2 a < 256 := xtime_lt a
  have h2b : g2 b < 256 := xtime_lt b
  have h2c : g2 c < 256 := xtime_lt c
  have h2d : g2 d < 256 := xtime_lt d
  have h3a : g3 a < 256 := xor_lt_256 (xtime_lt a) ha
  have h3b : g3 b < 256 := xor_lt_256 (xtime_lt b) hb
  have h3c : g3 c < 256 := xor_lt_256 (xtime_lt c) hc
  have h3d : g3 d < 256 := xor_lt_256 (xtime_lt d) hd
  have hf0 : g14 (g2 a ^^^ g3 b ^^^ c ^^^ d) ^^^ g11 (a ^^^ g2 b ^^^ g3 c ^^^ d) ^^^
      g13 (a ^^^ b ^^^ g2 c ^^^ g3 d) ^^^ g9 (g3 a ^^^ b ^^^ c ^^^ g2 d) = a := by
    have key : (g14 (g2 a) ^^^ g11 a ^^^ g13 a ^^^ g9 (g3 a)) ^^^
        (g14 (g3 b) ^^^ g11 (g2 b) ^^^ g13 b ^^^ g9 b) ^^^
        (g14 c ^^^ g11 (g3 c) ^^^ g13 (g2 c) ^^^ g9 c) ^^^
        (g14 d ^^^ g11 d ^^^ g13 (g3 d) ^^^ g9 (g2 d)) = a := by
      rw [mixCoef00 a ha, mixCoef01 b hb, mixCoef02 c hc, mixCoef03 d hd]
      simp
    rw [g14_xor4 h2a h3b hc hd, g11_xor4 ha h2b h3c hd, g13_xor4 ha hb h2c h3d,
      g9_xor4 h3a hb hc h2d]
    conv_rhs => rw [← key]
    simp only [Nat.xor_assoc, Nat.xor_comm, xorlc]
  have hf1 : g9 (g2 a ^^^ g3 b ^^^ c ^^^ d) ^^^
      g14 (a ^^^ g2 b ^^^ g3 c ^^^ d) ^^^
      g11 (a ^^^ b ^^^ g2 c ^^^ g3 d) ^^^
      g13 (g3 a ^^^ b ^^^ c ^^^ g2 d) = b := by
    have key : (g9 (g2 a) ^^^ g14 a ^^^ g11 a ^^^ g13 (g3 a)) ^^^
        (g9 (g3 b) ^^^ g14 (g2 b) ^^^ g11 b ^^^ g13 b) ^^^
        (g9 c ^^^ g14 (g3 c) ^^^ g11 (g2 c) ^^^ g13 c) ^^^
        (g9 d ^^^ g14 d ^^^ g11 (g3 d) ^^^ g13 (g2 d)) = b := by
      rw [mixCoef10 a ha, mixCoef11 b hb, mixCoef12 c hc, mixCoef13 d hd]
      simp
    rw [g9_xor4 h2a h3b hc hd, g14_xor4 ha h2b h3c hd, g11_xor4 ha hb h2c h3d, g13_xor4 h3a hb hc h2d]
    conv_rhs => rw [← key]
    simp only [Nat.xor_assoc, Nat.xor_comm, xorlc]
  have hf2 : g13 (g2 a ^^^ g3 b ^^^ c ^^^ d) ^^^
      g9 (a ^^^ g2 b ^^^ g3 c ^^^ d) ^^^
      g14 (a ^^^ b ^^^ g2 c ^^^ g3 d) ^^^
      g11 (g3 a ^^^ b ^^^ c ^^^ g2 d) = c := by
    have key : (g13 (g2 a) ^^^ g9 a ^^^ g14 a ^^^ g11 (g3 a)) ^^^
        (g13 (g3 b) ^^^ g9 (g2 b) ^^^ g14 b ^^^ g11 b) ^^^
        (g13 c ^^^ g9 (g3 c) ^^^ g14 (g2 c) ^^^ g11 c) ^^^
        (g13 d ^^^ g9 d ^^^ g14 (g3 d) ^^^ g11 (g2 d)) = c := by
      rw [mixCoef20 a ha, mixCoef21 b hb, mixCoef22 c hc, mixCoef23 d hd]
      simp
    rw [g13_xor4 h2a h3b hc hd, g9_xor4 ha h2b h3c hd, g14_xor4 ha hb h2c h3d, g11_xor4 h3a hb hc h2d]
    conv_rhs => rw [← key]
    simp only [Nat.xor_assoc, Nat.xor_comm, xorlc]
  have hf3 : g11 (g2 a ^^^ g3 b ^^^ c ^^^ d) ^^^
      g13 (a ^^^ g2 b ^^^ g3 c ^^^ d) ^^^
      g9 (a ^^^ b ^^^ g2 c ^^^ g3 d) ^^^
      g14 (g3 a ^^^ b ^^^ c ^^^ g2 d) = d := by
    have key : (g11 (g2 a) ^^^ g13 a ^^^ g9 a ^^^ g14 (g3 a)) ^^^
        (g11 (g3 b) ^^^ g13 (g2 b) ^^^ g9 b ^^^ g14 b) ^^^
        (g11 c ^^^ g13 (g3 c) ^^^ g9 (g2 c) ^^^ g14 c) ^^^
        (g11 d ^^^ g13 d ^^^ g9 (g3 d) ^^^ g14 (g2 d)) = d := by
      rw [mixCoef30 a ha, mixCoef31 b hb, mixCoef32 c hc, mixCoef33 d hd]
      simp
    rw [g11_xor4 h2a h3b hc hd, g13_xor4 ha h2b h3c hd, g9_xor4 ha hb h2c h3d, g14_xor4 h3a hb hc h2d]
    conv_rhs => rw [← key]
    simp only [Nat.xor_assoc, Nat.xor_comm, xorlc]
  show [g14 (g2 a ^^^ g3 b ^^^ c ^^^ d) ^^^ g11 (a ^^^ g2 b ^^^ g3 c ^^^ d) ^^^ g13 (a ^^^ b ^^^ g2 c ^^^ g3 d) ^^^ g9 (g3 a ^^^ b ^^^ c ^^^ g2 d),
      g9 (g2 a ^^^ g3 b ^^^ c ^^^ d) ^^^ g14 (a ^^^ g2 b ^^^ g3 c ^^^ d) ^^^ g11 (a ^^^ b ^^^ g2 c ^^^ g3 d) ^^^ g13 (g3 a ^^^ b ^^^ c ^^^ g2 d),
      g13 (g2 a ^^^ g3 b ^^^ c ^^^ d) ^^^ g9 (a ^^^ g2 b ^^^ g3 c ^^^ d) ^^^ g14 (a ^^^ b ^^^ g2 c ^^^ g3 d) ^^^ g11 (g3 a ^^^ b ^^^ c ^^^ g2 d),
      g11 (g2 a ^^^ g3 b ^^^ c ^^^ d) ^^^ g13 (a ^^^ g2 b ^^^ g3 c ^^^ d) ^^^ g9 (a ^^^ b ^^^ g2 c ^^^ g3 d) ^^^ g14 (g3 a ^^^ b ^^^ c ^^^ g2 d)] = [a, b, c, d]
  rw [hf0, hf1, hf2, hf3]

lemma invMixColumns_mixColumns {s : List Nat} (h : s.length = 16) (hb : allLt256 s) :
    invMixColumns (mixColumns s) = s := by
  obtain ⟨s0, s1, s2, s3, s4, s5, s6, s7, s8, s9, s10, s11, s12, s13, s14, s15, rfl⟩ :=
    exists_len16 s h
  have b0 : s0 < 256 := hb s0 (by simp)
  have b1 : s1 < 256 := hb s1 (by simp)
  have b2 : s2 < 256 := hb s2 (by simp)
  have b3 : s3 < 256 := hb s3 (by simp)
  have b4 : s4 < 256 := hb s4 (by simp)
  have b5 : s5 < 256 := hb s5 (by simp)
  have b6 : s6 < 256 := hb s6 (by simp)
  have b7 : s7 < 256 := hb s7 (by simp)
  have b8 : s8 < 256 := hb s8 (by simp)
  have b9 : s9 < 256 := hb s9 (by simp)
  have b10 : s10 < 256 := hb s10 (by simp)
  have b11 : s11 < 256 := hb s11 (by simp)
  have b12 : s12 < 256 := hb s12 (by simp)
  have b13 : s13 < 256 := hb s13 (by simp)
  have b14 : s14 < 256 := hb s14 (by simp)
  have b15 : s15 < 256 := hb s15 (by simp)
  show invMixCol (mixCol [s0, s1, s2, s3]) ++ invMixCol (mixCol [s4, s5, s6, s7]) ++
      invMixCol (mixCol [s8, s9, s10, s11]) ++ invMixCol (mixCol [s12, s13, s14, s15]) =
    [s0, s1, s2, s3, s4, s5, s6, s7, s8, s9, s10, s11, s12, s13, s14, s15]
  rw [invMixCol_mixCol s0 s1 s2 s3 b0 b1 b2 b3, invMixCol_mixCol s4 s5 s6 s7 b4 b5 b6 b7,
    invMixCol_mixCol s8 s9 s10 s11 b8 b9 b10 b11,
    invMixCol_mixCol s12 s13 s14 s15 b12 b13 b14 b15]
  rfl

lemma map_sinv_subBytes {s : List Nat} (hb : allLt256 s) : (subBytes s).map sinv = s := by
  induction s with
  | nil => rfl
  | cons x rest ih =>
    show sinv (sbox x) :: (subBytes rest).map sinv = x :: rest
    rw [sinv_sbox x (hb x (by simp)), ih (fun y hy => hb y (by simp [hy]))]

lemma subBytes_inj {s t : List Nat} (hs : allLt256 s) (ht : allLt256 t)
    (h : subBytes s = subBytes t) : s = t := by
  have h2 := congrArg (List.map sinv) h
  rwa [map_sinv_subBytes hs, map_sinv_subBytes ht] at h2

lemma invShiftRows_shiftRows {s : List Nat} (h : s.length = 16) :
    invShiftRows (shiftRows s) = s := by
  obtain ⟨s0, s1, s2, s3, s4, s5, s6, s7, s8, s9, s10, s11, s12, s13, s14, s15, rfl⟩ :=
    exists_len16 s h
  rfl

lemma shiftRows_inj {s t : List Nat} (hs : s.length = 16) (ht : t.length = 16)
    (h : shiftRows s = shiftRows t) : s = t := by
  have h2 := congrArg invShiftRows h
  rwa [invShiftRows_shiftRows hs, invShiftRows_shiftRows ht] at h2

lemma mixColumns_inj {s t : List Nat} (hs : s.length = 16) (ht : t.length = 16)
    (hsb : allLt256 s) (htb : allLt256 t) (h : mixColumns s = mixColumns t) : s = t := by
  have h2 := congrArg invMixColumns h
  rwa [invMixColumns_mixColumns hs hsb, invMixColumns_mixColumns ht htb] at h2

lemma zipXor_cancel_right : ∀ (s k : List Nat), s.length ≤ k.length →
    zipXor (zipXor s k) k = s := by
  intro s
  induction s with
  | nil => intro k _; rfl
  | cons x rest ih =>
    intro k hk
    rcases k with _ | ⟨kh, kt⟩
    · simp at hk
    · show ((x ^^^ kh) ^^^ kh) :: zipXor (zipXor rest kt) kt = x :: rest
      rw [Nat.xor_cancel_right, ih kt (by simpa using hk)]

lemma zipXor_right_cancel {s t k : List Nat} (hs : s.length ≤ k.length)
    (ht : t.length ≤ k.length) (h : zipXor s k = zipXor t k) : s = t := by
  have h2 := congrArg (fun l => zipXor l k) h
  simp only at h2
  rwa [zipXor_cancel_right s k hs, zipXor_cancel_right t k ht] at h2

lemma encryptBlockGo_inj : ∀ (rks : List (List Nat)), (∀ k ∈ rks, k.length = 16) →
    (∀ k ∈ rks, allLt256 k) → ∀ s t : List Nat, s.length = 16 → t.length = 16 →
    allLt256 s → allLt256 t → encryptBlockGo s rks = encryptBlockGo t rks → s = t := by
  intro rks
  induction rks with
  | nil => exact fun _ _ s t _ _ _ _ h => h
  | cons k rest ih =>
    intro hk hkb s t hs ht hsb htb h
    have hkl : k.length = 16 := hk k (by simp)
    have hss : (shiftRows (subBytes s)).length = 16 :=
      shiftRows_length (by rw [subBytes_length]; exact hs)
    have hst : (shiftRows (subBytes t)).length = 16 :=
      shiftRows_length (by rw [subBytes_length]; exact ht)
    have hssb : allLt256 (shiftRows (subBytes s)) :=
      fun x hx => subBytes_lt hsb x (shiftRows_mem x hx)
    have hstb : allLt256 (shiftRows (subBytes t)) :=
      fun x hx => subBytes_lt htb x (shiftRows_mem x hx)
    have step : shiftRows (subBytes s) = shiftRows (subBytes t) → s = t := by
      intro h2
      exact subBytes_inj hsb htb
        (shiftRows_inj (by rw [subBytes_length]; exact hs)
          (by rw [subBytes_length]; exact ht) h2)
    rcases rest with _ | ⟨k2, rest2⟩
    · replace h : zipXor (shiftRows (subBytes s)) k = zipXor (shiftRows (subBytes t)) k := h
      exact step (zipXor_right_cancel (by rw [hss, hkl]) (by rw [hst, hkl]) h)
    · replace h : encryptBlockGo (zipXor (mixColumns (shiftRows (subBytes s))) k)
          (k2 :: rest2) =
        encryptBlockGo (zipXor (mixColumns (shiftRows (subBytes t))) k) (k2 :: rest2) := h
      have hkb0 : allLt256 k := hkb k (by simp)
      have hms : (mixColumns (shiftRows (subBytes s))).length = 16 := mixColumns_length hss
      have hmt : (mixColumns (shiftRows (subBytes t))).length = 16 := mixColumns_length hst
      have hmsb : allLt256 (mixColumns (shiftRows (subBytes s))) := mixColumns_lt hssb
      have hmtb : allLt256 (mixColumns (shiftRows (subBytes t))) := mixColumns_lt hstb
      have h3 := ih (fun k3 hk3 => hk k3 (List.mem_cons_of_mem _ hk3))
        (fun k3 hk3 => hkb k3 (List.mem_cons_of_mem _ hk3))
        (zipXor (mixColumns (shiftRows (subBytes s))) k)
        (zipXor (mixColumns (shiftRows (subBytes t))) k)
        (by rw [zipXor_length, hms, hkl]; rfl)
        (by rw [zipXor_length, hmt, hkl]; rfl)
        (zipXor_lt hmsb hkb0) (zipXor_lt hmtb hkb0) h
      have h4 := zipXor_right_cancel (by rw [hms, hkl]) (by rw [hmt, hkl]) h3
      exact step (mixColumns_inj hss hst hssb hstb h4)

lemma encryptBlock_inj {rks : List (List Nat)} (hk : ∀ k ∈ rks, k.length = 16)
    (hkb : ∀ k ∈ rks, allLt256 k) {s t : List Nat} (hs : s.length = 16)
    (ht : t.length = 16) (hsb : allLt256 s) (htb : allLt256 t)
    (h : encryptBlock rks s = encryptBlock rks t) : s = t := by
  rcases rks with _ | ⟨k0, rest⟩
  · exact h
  · replace h : encryptBlockGo (zipXor s k0) rest = encryptBlockGo (zipXor t k0) rest := h
    have hk0 : k0.length = 16 := hk k0 (by simp)
    have hk0b : allLt256 k0 := hkb k0 (by simp)
    have h2 := encryptBlockGo_inj rest
      (fun k3 hk3 => hk k3 (List.mem_cons_of_mem _ hk3))
      (fun k3 hk3 => hkb k3 (List.mem_cons_of_mem _ hk3))
      (zipXor s k0) (zipXor t k0)
      (by rw [zipXor_length, hs, hk0]; rfl) (by rw [zipXor_length, ht, hk0]; rfl)
      (zipXor_lt hsb hk0b) (zipXor_lt htb hk0b) h
    exact zipXor_right_cancel (by rw [hs, hk0]) (by rw [ht, hk0]) h2

/-! ## CBC stream injectivity -/

lemma cbcEnc_inj_fuel (rks : List (List Nat)) (hk : ∀ k ∈ rks, k.length = 16)
    (hkb : ∀ k ∈ rks, allLt256 k) : ∀ (N : Nat) (e1 e2 civ : List Nat),
    e1.length ≤ N → e1.length = e2.length → e1.length % 16 = 0 →
    allLt256 e1 → allLt256 e2 → civ.length = 16 → allLt256 civ →
    cbcEnc rks civ e1 = cbcEnc rks civ e2 → e1 = e2 := by
  intro N
  induction N with
  | zero =>
    intro e1 e2 civ h1 hlen _ _ _ _ _ _
    have he1 : e1 = [] := List.eq_nil_of_length_eq_zero (by omega)
    have he2 : e2 = [] := List.eq_nil_of_length_eq_zero (by omega)
    rw [he1, he2]
  | succ n ih =>
    intro e1 e2 civ hN hlen hmod hb1 hb2 hciv hcivb h
    rcases e1 with _ | ⟨a1, l1⟩
    · exact (List.eq_nil_of_length_eq_zero (by simpa using hlen.symm)).symm
    · rcases e2 with _ | ⟨a2, l2⟩
      · simp at hlen
      · rw [cbcEnc, cbcEnc] at h
        have hge1 : 16 ≤ (a1 :: l1).length := by
          simp only [List.length_cons] at hmod ⊢
          omega
        have hge2 : 16 ≤ (a2 :: l2).length := by
          rw [← hlen]
          exact hge1
        have htk1 : ((a1 :: l1).take 16).length = 16 := by
          rw [List.length_take]
          omega
        have htk2 : ((a2 :: l2).take 16).length = 16 := by
          rw [List.length_take]
          omega
        have hx1l : (zipXor ((a1 :: l1).take 16) civ).length = 16 := by
          rw [zipXor_length, htk1, hciv]
          rfl
        have hx2l : (zipXor ((a2 :: l2).take 16) civ).length = 16 := by
          rw [zipXor_length, htk2, hciv]
          rfl
        have hx1b : allLt256 (zipXor ((a1 :: l1).take 16) civ) :=
          zipXor_lt (fun x hx => hb1 x (List.mem_of_mem_take hx)) hcivb
        have hx2b : allLt256 (zipXor ((a2 :: l2).take 16) civ) :=
          zipXor_lt (fun x hx => hb2 x (List.mem_of_mem_take hx)) hcivb
        have hc1len : (encryptBlock rks (zipXor ((a1 :: l1).take 16) civ)).length = 16 :=
          encryptBlock_length hx1l hk
        have hc2len : (encryptBlock rks (zipXor ((a2 :: l2).take 16) civ)).length = 16 :=
          encryptBlock_length hx2l hk
        have happ := List.append_inj h (by rw [hc1len, hc2len])
        have hceq := happ.1
        have hresteq := happ.2
        have hxeq := encryptBlock_inj hk hkb hx1l hx2l hx1b hx2b hceq
        have htakeeq : (a1 :: l1).take 16 = (a2 :: l2).take 16 :=
          zipXor_right_cancel (by rw [htk1, hciv]) (by rw [htk2, hciv]) hxeq
        rw [← hceq] at hresteq
        have hdropeq := ih (l1.drop 15) (l2.drop 15)
          (encryptBlock rks (zipXor ((a1 :: l1).take 16) civ))
          (by
            rw [List.length_drop]
            simp only [List.length_cons] at hN
            omega)
          (by
            rw [List.length_drop, List.length_drop]
            simp only [List.length_cons] at hlen
            omega)
          (by
            rw [List.length_drop]
            simp only [List.length_cons] at hmod
            omega)
          (fun x hx => hb1 x (List.mem_cons_of_mem _ (List.mem_of_mem_drop hx)))
          (fun x hx => hb2 x (List.mem_cons_of_mem _ (List.mem_of_mem_drop hx)))
          hc1len (encryptBlock_lt hx1b hkb) hresteq
        have hdrop16 : (a1 :: l1).drop 16 = (a2 :: l2).drop 16 := hdropeq
        rw [← List.take_append_drop 16 (a1 :: l1), ← List.take_append_drop 16 (a2 :: l2),
          htakeeq, hdrop16]

/-- Two CBC streams under the same key agree exactly when the IV-masked
first blocks agree and the data agree beyond the first block. -/
lemma cbcEnc_eq_iff (rks : List (List Nat)) (hk : ∀ k ∈ rks, k.length = 16)
    (hkb : ∀ k ∈ rks, allLt256 k) (d1 d2 civ1 civ2 : List Nat) (hne : d1 ≠ [])
    (hlen : d1.length = d2.length) (hmod : d1.length % 16 = 0)
    (hd1 : allLt256 d1) (hd2 : allLt256 d2)
    (hciv1 : civ1.length = 16) (hciv2 : civ2.length = 16)
    (hciv1b : allLt256 civ1) (hciv2b : allLt256 civ2) :
    cbcEnc rks civ1 d1 = cbcEnc rks civ2 d2 ↔
      (zipXor (d1.take 16) civ1 = zipXor (d2.take 16) civ2 ∧
        d1.drop 16 = d2.drop 16) := by
  rcases d1 with _ | ⟨a1, l1⟩
  · exact absurd rfl hne
  rcases d2 with _ | ⟨a2, l2⟩
  · simp at hlen
  have hge1 : 16 ≤ (a1 :: l1).length := by
    simp only [List.length_cons] at hmod ⊢
    omega
  have hge2 : 16 ≤ (a2 :: l2).length := by
    rw [← hlen]
    exact hge1
  have htk1 : ((a1 :: l1).take 16).length = 16 := by
    rw [List.length_take]
    omega
  have htk2 : ((a2 :: l2).take 16).length = 16 := by
    rw [List.length_take]
    omega
  have hx1l : (zipXor ((a1 :: l1).take 16) civ1).length = 16 := by
    rw [zipXor_length, htk1, hciv1]
    rfl
  have hx2l : (zipXor ((a2 :: l2).take 16) civ2).length = 16 := by
    rw [zipXor_length, htk2, hciv2]
    rfl
  have hx1b : allLt256 (zipXor ((a1 :: l1).take 16) civ1) :=
    zipXor_lt (fun x hx => hd1 x (List.mem_of_mem_take hx)) hciv1b
  have hx2b : allLt256 (zipXor ((a2 :: l2).take 16) civ2) :=
    zipXor_lt (fun x hx => hd2 x (List.mem_of_mem_take hx)) hciv2b
  have hc1len : (encryptBlock rks (zipXor ((a1 :: l1).take 16) civ1)).length = 16 :=
    encryptBlock_length hx1l hk
  have hc2len : (encryptBlock rks (zipXor ((a2 :: l2).take 16) civ2)).length = 16 :=
    encryptBlock_length hx2l hk
  constructor
  · intro h
    rw [cbcEnc, cbcEnc] at h
    have happ := List.append_inj h (by rw [hc1len, hc2len])
    have hceq := happ.1
    have hresteq := happ.2
    have hxeq := encryptBlock_inj hk hkb hx1l hx2l hx1b hx2b hceq
    refine ⟨hxeq, ?_⟩
    rw [← hceq] at hresteq
    have hdropeq := cbcEnc_inj_fuel rks hk hkb (l1.drop 15).length (l1.drop 15)
      (l2.drop 15) (encryptBlock rks (zipXor ((a1 :: l1).take 16) civ1)) le_rfl
      (by
        rw [List.length_drop, List.length_drop]
        simp only [List.length_cons] at hlen
        omega)
      (by
        rw [List.length_drop]
        simp only [List.length_cons] at hmod
        omega)
      (fun x hx => hd1 x (List.mem_cons_of_mem _ (List.mem_of_mem_drop hx)))
      (fun x hx => hd2 x (List.mem_cons_of_mem _ (List.mem_of_mem_drop hx)))
      hc1len (encryptBlock_lt hx1b hkb) hresteq
    exact hdropeq
  · intro ⟨hhead, htail⟩
    rw [cbcEnc, cbcEnc, hhead]
    have htail2 : l1.drop 15 = l2.drop 15 := htail
    rw [htail2]

/-! ## Base64 injectivity and the `encrypt_password` collision criterion -/

lemma base64Enc_inj {bs1 bs2 : List Nat} (h1 : allLt256 bs1) (h2 : allLt256 bs2) :
    base64Enc bs1 = base64Enc bs2 ↔ bs1 = bs2 := by
  constructor
  · intro h
    have hd : b64EncList bs1 = b64EncList bs2 := congrArg String.data h
    have hrt := b64_roundtrip bs1 h1
    rw [hd, b64_roundtrip bs2 h2] at hrt
    injection hrt with hrt
    exact hrt.symm
  · intro h
    rw [h]

lemma ok_eq_iff {ε α : Type} (a b : α) :
    (Except.ok a : Except ε α) = Except.ok b ↔ a = b := by
  constructor
  · intro h
    injection h
  · intro h
    rw [h]

/-- Two CBC-then-base64 runs under the same key and plaintext suffix agree
exactly when the IV-masked first plaintext blocks and the prefix tails
agree. -/
lemma cbc_b64_eq_iff (nk nr : Nat) (key iv1b iv2b pre1b pre2b suf : List Nat)
    (hnk : 1 ≤ nk) (hnk2 : nk ≤ 4 * (nr + 1)) (hkl : key.length = 4 * nk)
    (hkb : allLt256 key)
    (hiv1 : iv1b.length = 16) (hiv2 : iv2b.length = 16)
    (hiv1b : allLt256 iv1b) (hiv2b : allLt256 iv2b)
    (hp1 : pre1b.length = 64) (hp2 : pre2b.length = 64)
    (hp1b : allLt256 pre1b) (hp2b : allLt256 pre2b)
    (hsuf : (64 + suf.length) % 16 = 0) (hsufb : allLt256 suf) :
    base64Enc (cbcEnc (expandKey nk nr key) iv1b (pre1b ++ suf)) =
      base64Enc (cbcEnc (expandKey nk nr key) iv2b (pre2b ++ suf)) ↔
      (zipXor (pre1b.take 16) iv1b = zipXor (pre2b.take 16) iv2b ∧
        pre1b.drop 16 = pre2b.drop 16) := by
  have hrk := expandKey_rk nk nr key hnk hnk2 hkl hkb
  have hk1 : ∀ k ∈ expandKey nk nr key, k.length = 16 := fun k hk2 => (hrk k hk2).1
  have hkb1 : ∀ k ∈ expandKey nk nr key, allLt256 k := fun k hk2 => (hrk k hk2).2
  have hd1len : (pre1b ++ suf).length = 64 + suf.length := by
    rw [List.length_append, hp1]
  have hd2len : (pre2b ++ suf).length = 64 + suf.length := by
    rw [List.length_append, hp2]
  have hd1b : allLt256 (pre1b ++ suf) := by
    intro x hx
    rcases List.mem_append.mp hx with hx | hx
    · exact hp1b x hx
    · exact hsufb x hx
  have hd2b : allLt256 (pre2b ++ suf) := by
    intro x hx
    rcases List.mem_append.mp hx with hx | hx
    · exact hp2b x hx
    · exact hsufb x hx
  have hct1 := cbcEnc_spec (expandKey nk nr key) (pre1b ++ suf) iv1b hk1 hkb1 hiv1 hiv1b
    (by rw [hd1len]; exact hsuf) hd1b
  have hct2 := cbcEnc_spec (expandKey nk nr key) (pre2b ++ suf) iv2b hk1 hkb1 hiv2 hiv2b
    (by rw [hd2len]; exact hsuf) hd2b
  rw [base64Enc_inj hct1.2 hct2.2,
    cbcEnc_eq_iff (expandKey nk nr key) hk1 hkb1 (pre1b ++ suf) (pre2b ++ suf) iv1b iv2b
      (List.ne_nil_of_length_pos (by rw [hd1len]; omega))
      (by rw [hd1len, hd2len]) (by rw [hd1len]; exact hsuf) hd1b hd2b hiv1 hiv2
      hiv1b hiv2b,
    List.take_append_of_le_length (by rw [hp1]; omega),
    List.take_append_of_le_length (by rw [hp2]; omega),
    List.drop_append_of_le_length (by rw [hp1]; omega),
    List.drop_append_of_le_length (by rw [hp2]; omega)]
  constructor
  · intro h
    exact ⟨h.1, List.append_cancel_right h.2⟩
  · intro h
    exact ⟨h.1, by rw [h.2]⟩

/-- C9 (amended): with the random draws made explicit, two runs of
`encrypt_password` on the same password and valid salt produce equal
outputs exactly when the IV-masked first prefix blocks and the prefix
tails coincide; distinct draws therefore do NOT guarantee distinct
outputs. -/
theorem encryptPassword_collision_characterization
    (password salt iv1 rnd1 iv2 rnd2 : String)
    (hsalt : (utf8Bytes (rustTrim salt)).length = 16 ∨
      (utf8Bytes (rustTrim salt)).length = 24 ∨
      (utf8Bytes (rustTrim salt)).length = 32)
    (hiv1_len : iv1.data.length = 16) (hiv1_ab : ∀ c ∈ iv1.data, c ∈ aesChars)
    (hiv2_len : iv2.data.length = 16) (hiv2_ab : ∀ c ∈ iv2.data, c ∈ aesChars)
    (hrnd1_len : rnd1.data.length = 64) (hrnd1_ab : ∀ c ∈ rnd1.data, c ∈ aesChars)
    (hrnd2_len : rnd2.data.length = 64) (hrnd2_ab : ∀ c ∈ rnd2.data, c ∈ aesChars) :
    encryptPasswordWith iv1 rnd1 password salt =
        encryptPasswordWith iv2 rnd2 password salt ↔
      (zipXor ((utf8Bytes rnd1).take 16) (utf8Bytes iv1) =
         zipXor ((utf8Bytes rnd2).take 16) (utf8Bytes iv2) ∧
       (utf8Bytes rnd1).drop 16 = (utf8Bytes rnd2).drop 16) := by
  have hiv1l : (utf8Bytes iv1).length = 16 := by
    rw [utf8Bytes_length_alphabet iv1 hiv1_ab, hiv1_len]
  have hiv2l : (utf8Bytes iv2).length = 16 := by
    rw [utf8Bytes_length_alphabet iv2 hiv2_ab, hiv2_len]
  have hr1l : (utf8Bytes rnd1).length = 64 := by
    rw [utf8Bytes_length_alphabet rnd1 hrnd1_ab, hrnd1_len]
  have hr2l : (utf8Bytes rnd2).length = 64 := by
    rw [utf8Bytes_length_alphabet rnd2 hrnd2_ab, hrnd2_len]
  have hplain1 : (utf8Bytes (rnd1 ++ password)).length =
      64 + (utf8Bytes password).length := by
    rw [utf8Bytes_append, List.length_append, hr1l]
  have hplain2 : (utf8Bytes (rnd2 ++ password)).length =
      64 + (utf8Bytes password).length := by
    rw [utf8Bytes_append, List.length_append, hr2l]
  have hform1 : utf8Bytes (rnd1 ++ password) ++
      List.replicate (16 - (utf8Bytes (rnd1 ++ password)).length % 16)
        (16 - (utf8Bytes (rnd1 ++ password)).length % 16) =
      utf8Bytes rnd1 ++ (utf8Bytes password ++
        List.replicate (16 - (64 + (utf8Bytes password).length) % 16)
          (16 - (64 + (utf8Bytes password).length) % 16)) := by
    rw [hplain1, utf8Bytes_append, List.append_assoc]
  have hform2 : utf8Bytes (rnd2 ++ password) ++
      List.replicate (16 - (utf8Bytes (rnd2 ++ password)).length % 16)
        (16 - (utf8Bytes (rnd2 ++ password)).length % 16) =
      utf8Bytes rnd2 ++ (utf8Bytes password ++
        List.replicate (16 - (64 + (utf8Bytes password).length) % 16)
          (16 - (64 + (utf8Bytes password).length) % 16)) := by
    rw [hplain2, utf8Bytes_append, List.append_assoc]
  have hsufmod : (64 + (utf8Bytes password ++
      List.replicate (16 - (64 + (utf8Bytes password).length) % 16)
        (16 - (64 + (utf8Bytes password).length) % 16)).length) % 16 = 0 := by
    rw [List.length_append, List.length_replicate]
    omega
  have hsufb : allLt256 (utf8Bytes password ++
      List.replicate (16 - (64 + (utf8Bytes password).length) % 16)
        (16 - (64 + (utf8Bytes password).length) % 16)) := by
    intro x hx
    rcases List.mem_append.mp hx with hx | hx
    · exact utf8Bytes_lt password x hx
    · have := List.eq_of_mem_replicate hx
      omega
  rcases hsalt with hs | hs | hs
  · have he1 : encryptPasswordWith iv1 rnd1 password salt =
        .ok (base64Enc (cbcEnc (expandKey 4 10 (utf8Bytes (rustTrim salt)))
          (utf8Bytes iv1) (utf8Bytes rnd1 ++ (utf8Bytes password ++
            List.replicate (16 - (64 + (utf8Bytes password).length) % 16)
          (16 - (64 + (utf8Bytes password).length) % 16))))) := by
      rw [← hform1]
      simp only [encryptPasswordWith, hs]
      rfl
    have he2 : encryptPasswordWith iv2 rnd2 password salt =
        .ok (base64Enc (cbcEnc (expandKey 4 10 (utf8Bytes (rustTrim salt)))
          (utf8Bytes iv2) (utf8Bytes rnd2 ++ (utf8Bytes password ++
            List.replicate (16 - (64 + (utf8Bytes password).length) % 16)
          (16 - (64 + (utf8Bytes password).length) % 16))))) := by
      rw [← hform2]
      simp only [encryptPasswordWith, hs]
      rfl
    rw [he1, he2, ok_eq_iff]
    exact cbc_b64_eq_iff 4 10 (utf8Bytes (rustTrim salt)) (utf8Bytes iv1) (utf8Bytes iv2)
      (utf8Bytes rnd1) (utf8Bytes rnd2) _
      (by norm_num) (by norm_num) (by rw [hs]) (utf8Bytes_lt _)
      hiv1l hiv2l (utf8Bytes_lt _) (utf8Bytes_lt _)
      hr1l hr2l (utf8Bytes_lt _) (utf8Bytes_lt _) hsufmod hsufb
  · have he1 : encryptPasswordWith iv1 rnd1 password salt =
        .ok (base64Enc (cbcEnc (expandKey 6 12 (utf8Bytes (rustTrim salt)))
          (utf8Bytes iv1) (utf8Bytes rnd1 ++ (utf8Bytes password ++
            List.replicate (16 - (64 + (utf8Bytes password).length) % 16)
          (16 - (64 + (utf8Bytes password).length) % 16))))) := by
      rw [← hform1]
      simp only [encryptPasswordWith, hs]
      rfl
    have he2 : encryptPasswordWith iv2 rnd2 password salt =
        .ok (base64Enc (cbcEnc (expandKey 6 12 (utf8Bytes (rustTrim salt)))
          (utf8Bytes iv2) (utf8Bytes rnd2 ++ (utf8Bytes password ++
            List.replicate (16 - (64 + (utf8Bytes password).length) % 16)
          (16 - (64 + (utf8Bytes password).length) % 16))))) := by
      rw [← hform2]
      simp only [encryptPasswordWith, hs]
      rfl
    rw [he1, he2, ok_eq_iff]
    exact cbc_b64_eq_iff 6 12 (utf8Bytes (rustTrim salt)) (utf8Bytes iv1) (utf8Bytes iv2)
      (utf8Bytes rnd1) (utf8Bytes rnd2) _
      (by norm_num) (by norm_num) (by rw [hs]) (utf8Bytes_lt _)
      hiv1l hiv2l (utf8Bytes_lt _) (utf8Bytes_lt _)
      hr1l hr2l (utf8Bytes_lt _) (utf8Bytes_lt _) hsufmod hsufb
  · have he1 : encryptPasswordWith iv1 rnd1 password salt =
        .ok (base64Enc (cbcEnc (expandKey 8 14 (utf8Bytes (rustTrim salt)))
          (utf8Bytes iv1) (utf8Bytes rnd1 ++ (utf8Bytes password ++
            List.replicate (16 - (64 + (utf8Bytes password).length) % 16)
          (16 - (64 + (utf8Bytes password).length) % 16))))) := by
      rw [← hform1]
      simp only [encryptPasswordWith, hs]
      rfl
    have he2 : encryptPasswordWith iv2 rnd2 password salt =
        .ok (base64Enc (cbcEnc (expandKey 8 14 (utf8Bytes (rustTrim salt)))
          (utf8Bytes iv2) (utf8Bytes rnd2 ++ (utf8Bytes password ++
            List.replicate (16 - (64 + (utf8Bytes password).length) % 16)
          (16 - (64 + (utf8Bytes password).length) % 16))))) := by
      rw [← hform2]
      simp only [encryptPasswordWith, hs]
      rfl
    rw [he1, he2, ok_eq_iff]
    exact cbc_b64_eq_iff 8 14 (utf8Bytes (rustTrim salt)) (utf8Bytes iv1) (utf8Bytes iv2)
      (utf8Bytes rnd1) (utf8Bytes rnd2) _
      (by norm_num) (by norm_num) (by rw [hs]) (utf8Bytes_lt _)
      hiv1l hiv2l (utf8Bytes_lt _) (utf8Bytes_lt _)
      hr1l hr2l (utf8Bytes_lt _) (utf8Bytes_lt _) hsufmod hsufb

theorem encryptPassword_collision_characterization_witness :
    ((utf8Bytes (rustTrim "1234567890123456")).length = 16 ∨
      (utf8Bytes (rustTrim "1234567890123456")).length = 24 ∨
      (utf8Bytes (rustTrim "1234567890123456")).length = 32) ∧
    (encryptPasswordWith "ABCDEFGHJKMNPQRS" (String.mk (List.replicate 64 'a'))
        "password123" "1234567890123456" =
      encryptPasswordWith "ABCDEFGHJKMNPQRS" (String.mk (List.replicate 64 'a'))
        "password123" "1234567890123456" ↔
      (zipXor ((utf8Bytes (String.mk (List.replicate 64 'a'))).take 16)
          (utf8Bytes "ABCDEFGHJKMNPQRS") =
        zipXor ((utf8Bytes (String.mk (List.replicate 64 'a'))).take 16)
          (utf8Bytes "ABCDEFGHJKMNPQRS") ∧
       (utf8Bytes (String.mk (List.replicate 64 'a'))).drop 16 =
         (utf8Bytes (String.mk (List.replicate 64 'a'))).drop 16)) :=
  ⟨Or.inl (by decide),
    encryptPassword_collision_characterization "password123" "1234567890123456"
      "ABCDEFGHJKMNPQRS" (String.mk (List.replicate 64 'a'))
      "ABCDEFGHJKMNPQRS" (String.mk (List.replicate 64 'a'))
      (Or.inl (by decide)) (by decide) (by decide) (by decide) (by decide)
      (by decide) (by decide) (by decide) (by decide)⟩

set_option maxHeartbeats 2000000 in
/-- C9 counterexample: two DISTINCT draws of the random IV and prefix --
both of the exact shape `random_string` produces (16 resp. 64 characters
from `AES_CHARS`) -- give byte-identical `encrypt_password` outputs,
because the IV is XORed into the first prefix block and the outputs do
not include the IV. -/
theorem encryptPassword_collision_distinct_draws :
    ((String.mk (List.replicate 16 'A'),
        String.mk (List.replicate 16 'B' ++ List.replicate 48 'C')) ≠
      (String.mk (List.replicate 16 'B'),
        String.mk (List.replicate 16 'A' ++ List.replicate 48 'C'))) ∧
    (String.mk (List.replicate 16 'A')).data.length = 16 ∧
    (String.mk (List.replicate 16 'B')).data.length = 16 ∧
    (String.mk (List.replicate 16 'B' ++ List.replicate 48 'C')).data.length = 64 ∧
    (String.mk (List.replicate 16 'A' ++ List.replicate 48 'C')).data.length = 64 ∧
    (∀ c ∈ (String.mk (List.replicate 16 'A')).data ++
        (String.mk (List.replicate 16 'B')).data ++
        (String.mk (List.replicate 16 'B' ++ List.replicate 48 'C')).data ++
        (String.mk (List.replicate 16 'A' ++ List.replicate 48 'C')).data,
      c ∈ aesChars) ∧
    encryptPasswordWith (String.mk (List.replicate 16 'A'))
        (String.mk (List.replicate 16 'B' ++ List.replicate 48 'C'))
        "password123" "1234567890123456" =
      encryptPasswordWith (String.mk (List.replicate 16 'B'))
        (String.mk (List.replicate 16 'A' ++ List.replicate 48 'C'))
        "password123" "1234567890123456" ∧
    ∃ out, encryptPasswordWith (String.mk (List.replicate 16 'A'))
        (String.mk (List.replicate 16 'B' ++ List.replicate 48 'C'))
        "password123" "1234567890123456" = .ok out := by
  have h1 : encryptPasswordWith (String.mk (List.replicate 16 'A'))
      (String.mk (List.replicate 16 'B' ++ List.replicate 48 'C'))
      "password123" "1234567890123456" =
    .ok (base64Enc (cbcEnc (expandKey 4 10 (utf8Bytes (rustTrim "1234567890123456")))
      (utf8Bytes (String.mk (List.replicate 16 'A')))
      (utf8Bytes (String.mk (List.replicate 16 'B' ++ List.replicate 48 'C')) ++
        (utf8Bytes "password123" ++ List.replicate 5 5)))) := rfl
  have h2 : encryptPasswordWith (String.mk (List.replicate 16 'B'))
      (String.mk (List.replicate 16 'A' ++ List.replicate 48 'C'))
      "password123" "1234567890123456" =
    .ok (base64Enc (cbcEnc (expandKey 4 10 (utf8Bytes (rustTrim "1234567890123456")))
      (utf8Bytes (String.mk (List.replicate 16 'B')))
      (utf8Bytes (String.mk (List.replicate 16 'A' ++ List.replicate 48 'C')) ++
        (utf8Bytes "password123" ++ List.replicate 5 5)))) := rfl
  refine ⟨by decide, by decide, by decide, by decide, by decide, by decide, ?_, ⟨_, rfl⟩⟩
  rw [h1, h2, ok_eq_iff]
  exact (cbc_b64_eq_iff 4 10 (utf8Bytes (rustTrim "1234567890123456"))
    (utf8Bytes (String.mk (List.replicate 16 'A')))
    (utf8Bytes (String.mk (List.replicate 16 'B')))
    (utf8Bytes (String.mk (List.replicate 16 'B' ++ List.replicate 48 'C')))
    (utf8Bytes (String.mk (List.replicate 16 'A' ++ List.replicate 48 'C')))
    (utf8Bytes "password123" ++ List.replicate 5 5)
    (by norm_num) (by norm_num) (by decide) (utf8Bytes_lt _)
    (by decide) (by decide) (utf8Bytes_lt _) (utf8Bytes_lt _)
    (by decide) (by decide) (utf8Bytes_lt _) (utf8Bytes_lt _)
    (by decide) (by
      intro x hx
      rcases List.mem_append.mp hx with hx | hx
      · exact utf8Bytes_lt "password123" x hx
      · have := List.eq_of_mem_replicate hx
        omega)).mpr ⟨by decide, by decide⟩

end Uestc
